import Mathlib

/-!
Verification of the `pwiki` wikitext parser and document model
(`pwiki/wparser.py`) against its specification.

The development contains two embeddings of the document model:

* a pure value model (`WikiText`, `WikiTemplate`, `WNode`) used for the
  parsing, serialization and parameter-map claims, in which the mutable
  `parent` back-reference is ignored (it never influences serialization
  or the node sequence); and
* a heap model (`Heap`, `TmplObj`, `HNode`, `Op`) in which `WikiText`
  and `WikiTemplate` objects are identified by allocation indices and
  the `parent` back-reference and in-place mutation are explicit; this
  is used for the parent-invariant and `drop()` claims.

Python's `ElementTree` reports absent text as `None`; both `None` and
the empty string are modelled as `""`.  With one exception every use
of `.text`/`.tail` in `wparser.py` is a truthiness test, for which the
identification is exact.  The exception is `x.text.strip()` at line
587: an empty `<name>` element with no `index` attribute has
`text = None` there and CPython raises `AttributeError`, while the
model yields the key `""`.  The round-trip well-formedness predicate
(`wfPartB`) therefore requires a non-empty `<name>` text, keeping that
error path outside the domain of every theorem below.
-/

/-! ### The pure document model

`WikiText._l` is a list of `str` and `WikiTemplate` elements; a
`WikiTemplate` holds an optional title (`None` in Python when absent)
and an insertion-ordered parameter dict from `str` keys to `WikiText`
values. -/

mutual

inductive WNode : Type where
  | str : String → WNode
  | tmpl : WikiTemplate → WNode

inductive WikiTemplate : Type where
  | mk : Option String → List (String × WikiText) → WikiTemplate

inductive WikiText : Type where
  | mk : List WNode → WikiText

end

/-- The node list `_l` of a `WikiText`. -/
def WikiText.nodes : WikiText → List WNode
  | .mk l => l

/-- The `title` attribute of a `WikiTemplate` (`none` models Python's `None`). -/
def WikiTemplate.title : WikiTemplate → Option String
  | .mk t _ => t

/-- The `_params` dict of a `WikiTemplate`, as an insertion-ordered
association list with unique keys. -/
def WikiTemplate.params : WikiTemplate → List (String × WikiText)
  | .mk _ p => p

/-- Python's `f"...{x}..."` rendering of an `Optional[str]`: `None` prints
as the four characters `None`. -/
def pyStrTitle : Option String → String
  | none => "None"
  | some s => s

/-- Python `str.strip()`: remove leading and trailing whitespace.
Defined by structural recursion over the character list so that it
evaluates on concrete inputs; it agrees with Python on the ASCII
whitespace appearing in this development. -/
def pyStrip (s : String) : String :=
  ⟨((s.data.dropWhile Char.isWhitespace).reverse.dropWhile Char.isWhitespace).reverse⟩

/-! Serialization, translated from `WikiText.as_text` (line 118: join of
`str(x)` over `_l`) and `WikiTemplate.as_text` (line 328: each parameter
renders as `|k=v` where `{v}` invokes `WikiText.__str__`, i.e.
`as_text(True)`, which strips leading and trailing whitespace of the
value). -/

mutual

def textOfNodes : List WNode → String
  | [] => ""
  | n :: rest => nodeStr n ++ textOfNodes rest

def nodeStr : WNode → String
  | .str s => s
  | .tmpl t => tmplAsText false t

def tmplAsText : Bool → WikiTemplate → String
  | indent, .mk title params =>
    "\x7b\x7b" ++ pyStrTitle title ++ paramsStr indent params ++
      (if indent then "\n" else "") ++ "\x7d\x7d"

def paramsStr : Bool → List (String × WikiText) → String
  | _, [] => ""
  | indent, (k, v) :: rest =>
    (if indent then "\n" else "") ++ "|" ++ k ++ "=" ++ strOfText v ++
      paramsStr indent rest

def strOfText : WikiText → String
  | .mk l => pyStrip (textOfNodes l)

end

/-- `WikiText.as_text(trim)`: join all nodes, optionally stripping the
final concatenation. -/
def WikiText.asText (w : WikiText) (trim : Bool) : String :=
  if trim then pyStrip (textOfNodes w.nodes) else textOfNodes w.nodes

/-! ### Appending (`WikiText.__iadd__`, lines 45-73)

The argument of `__iadd__` is duck-typed; `PyVal` models the four
relevant cases (`str`, `WikiTemplate`, `WikiText`, anything else).
Appending a `WikiTemplate` in Python also sets its `parent`
back-reference (line 66); the parent pointer is modelled in the heap
embedding below, not in the pure value model. -/

inductive PyVal : Type where
  | pstr : String → PyVal
  | ptmpl : WikiTemplate → PyVal
  | ptext : WikiText → PyVal
  | other : PyVal

/-- Errors raised by the Python code. -/
inductive PyErr : Type where
  | typeError
  | valueError
  | nameError
  | attributeError
  | xmlParseError
  deriving DecidableEq

/-- The `str` branch of `__iadd__`: empty strings are dropped, a
non-empty string merges into a trailing `str` element if one exists
(`self._l[-1] += other`), otherwise it is appended. -/
def appendStrNodes : List WNode → String → List WNode
  | [], s => [.str s]
  | [.str t], s => [.str (t ++ s)]
  | n :: rest, s => n :: appendStrNodes rest s

/-- One `self += e` step for an element `e` of another `WikiText`'s node
list (`e` is a `str` or a `WikiTemplate`). -/
def appendNode (l : List WNode) : WNode → List WNode
  | .str s => if s = "" then l else appendStrNodes l s
  | .tmpl t => l ++ [.tmpl t]

/-- `WikiText.__iadd__`, with the `TypeError` of line 71 for any value
that is not a `str`, `WikiTemplate` or `WikiText`.  A raised exception
leaves the receiver unchanged. -/
def WikiText.iaddChecked (w : WikiText) : PyVal → Except PyErr WikiText
  | .pstr s => .ok (.mk (appendNode w.nodes (.str s)))
  | .ptmpl t => .ok (.mk (w.nodes ++ [.tmpl t]))
  | .ptext o => .ok (.mk (o.nodes.foldl appendNode w.nodes))
  | .other => .error .typeError

/-- Successful append; on the `TypeError` case the receiver is returned
unchanged (in Python the exception propagates and the object keeps its
old state). -/
def WikiText.appendVal (w : WikiText) (v : PyVal) : WikiText :=
  ((w.iaddChecked v).toOption).getD w

/-- `WikiText.__init__`: the initial elements are appended in order to an
empty node list. -/
def WikiText.ofArgs (args : List PyVal) : WikiText :=
  args.foldl WikiText.appendVal (.mk [])

/-- No two consecutive elements of the node list are plain text. -/
def coalescedNodes : List WNode → Bool
  | .str _ :: .str _ :: _ => false
  | _ :: rest => coalescedNodes rest
  | [] => true

/-! ### Coalescing lemmas -/

/-- Whether a node is a plain-text element. -/
def isStrNode : WNode → Bool
  | .str _ => true
  | .tmpl _ => false

/-- Whether the first element of a node list is plain text. -/
def headStr : List WNode → Bool
  | .str _ :: _ => true
  | _ => false

theorem coalescedNodes_cons (a : WNode) (l : List WNode) :
    coalescedNodes (a :: l) = (!(isStrNode a && headStr l) && coalescedNodes l) := by
  cases a <;> rcases l with _ | ⟨b, l⟩ <;> first
    | rfl
    | (cases b <;> rfl)

theorem appendStrNodes_cons_cons (n m : WNode) (rest : List WNode) (s : String) :
    appendStrNodes (n :: m :: rest) s = n :: appendStrNodes (m :: rest) s := by
  cases n <;> rfl

theorem headStr_appendStrNodes (l : List WNode) (s : String) (h : l ≠ []) :
    headStr (appendStrNodes l s) = headStr l := by
  rcases l with _ | ⟨n, _ | ⟨m, rest⟩⟩
  · exact absurd rfl h
  · cases n <;> rfl
  · rw [appendStrNodes_cons_cons]; cases n <;> rfl

theorem coalesced_appendStrNodes (l : List WNode) (s : String)
    (h : coalescedNodes l = true) : coalescedNodes (appendStrNodes l s) = true := by
  induction l with
  | nil => rfl
  | cons n rest ih =>
    rcases rest with _ | ⟨m, rest'⟩
    · cases n <;> rfl
    · rw [appendStrNodes_cons_cons]
      rw [coalescedNodes_cons] at h ⊢
      rw [headStr_appendStrNodes _ _ (by simp)]
      simp only [Bool.and_eq_true, Bool.not_eq_true'] at h ⊢
      exact ⟨h.1, ih h.2⟩

theorem headStr_cons_append (m : WNode) (l : List WNode) (x : WNode) :
    headStr (m :: l ++ [x]) = headStr (m :: l) := by
  cases m <;> rfl

theorem coalesced_append_tmpl (l : List WNode) (t : WikiTemplate)
    (h : coalescedNodes l = true) : coalescedNodes (l ++ [.tmpl t]) = true := by
  induction l with
  | nil => rfl
  | cons n rest ih =>
    rw [coalescedNodes_cons] at h
    rw [List.cons_append, coalescedNodes_cons]
    simp only [Bool.and_eq_true, Bool.not_eq_true'] at h ⊢
    rcases rest with _ | ⟨m, rest'⟩
    · refine ⟨?_, ih rfl⟩
      cases n <;> rfl
    · rw [headStr_cons_append]
      exact ⟨h.1, ih h.2⟩

theorem coalesced_appendNode (l : List WNode) (n : WNode)
    (h : coalescedNodes l = true) : coalescedNodes (appendNode l n) = true := by
  cases n with
  | str s =>
    by_cases hs : s = "" <;> simp only [appendNode, hs, if_pos, if_neg, ite_true, ite_false]
    · exact h
    · exact coalesced_appendStrNodes l s h
  | tmpl t => exact coalesced_append_tmpl l t h

theorem coalesced_foldl_appendNode (els : List WNode) (acc : List WNode)
    (h : coalescedNodes acc = true) :
    coalescedNodes (els.foldl appendNode acc) = true := by
  induction els generalizing acc with
  | nil => exact h
  | cons e rest ih => exact ih _ (coalesced_appendNode acc e h)

theorem coalesced_appendVal (w : WikiText) (v : PyVal)
    (h : coalescedNodes w.nodes = true) : coalescedNodes (w.appendVal v).nodes = true := by
  cases v with
  | pstr s => exact coalesced_appendNode w.nodes (.str s) h
  | ptmpl t => exact coalesced_append_tmpl w.nodes t h
  | ptext o => exact coalesced_foldl_appendNode o.nodes w.nodes h
  | other => exact h

theorem appendStrNodes_snoc_str (l₀ : List WNode) (t s : String) :
    appendStrNodes (l₀ ++ [.str t]) s = l₀ ++ [.str (t ++ s)] := by
  induction l₀ with
  | nil => rfl
  | cons n rest ih =>
    rcases h : rest ++ [WNode.str t] with _ | ⟨m, rest'⟩
    · simp at h
    · rw [List.cons_append, h, appendStrNodes_cons_cons, ← h, ih, List.cons_append]

/-- C2: after any sequence of `__iadd__` calls on a `WikiText` mixing
strings, `WikiTemplate`s and other `WikiText`s, the node sequence never
contains two consecutive plain-text nodes, and appending a non-empty
string merges it into a trailing text run when one exists. -/
theorem c2_coalescing_invariant :
    (∀ (w : WikiText) (v : PyVal), coalescedNodes w.nodes = true →
        coalescedNodes (w.appendVal v).nodes = true)
    ∧ (∀ args : List PyVal, coalescedNodes (WikiText.ofArgs args).nodes = true)
    ∧ (∀ (w : WikiText) (l₀ : List WNode) (t s : String),
        w.nodes = l₀ ++ [.str t] → s ≠ "" →
        (w.appendVal (.pstr s)).nodes = l₀ ++ [.str (t ++ s)]) := by
  refine ⟨coalesced_appendVal, ?_, ?_⟩
  · intro args
    have : ∀ (as : List PyVal) (w : WikiText), coalescedNodes w.nodes = true →
        coalescedNodes (as.foldl WikiText.appendVal w).nodes = true := by
      intro as
      induction as with
      | nil => exact fun w h => h
      | cons a rest ih => exact fun w h => ih _ (coalesced_appendVal w a h)
    exact this args (.mk []) rfl
  · intro w l₀ t s hw hs
    show (WikiText.mk (appendNode w.nodes (.str s))).nodes = _
    rw [hw]
    simp only [appendNode, if_neg hs, WikiText.nodes]
    exact appendStrNodes_snoc_str l₀ t s

/-- C2 witness: the invariant and merge clause at concrete inputs. -/
theorem c2_coalescing_invariant_witness :
    coalescedNodes ((WikiText.mk [.str "a"]).appendVal (.ptmpl (.mk (some "T") []))).nodes = true
    ∧ ((WikiText.mk [.tmpl (.mk (some "T") []), .str "x"]).appendVal (.pstr "y")).nodes
        = [.tmpl (.mk (some "T") []), .str "xy"] :=
  ⟨c2_coalescing_invariant.1 _ _ rfl,
   c2_coalescing_invariant.2.2 _ [.tmpl (.mk (some "T") [])] "x" "y" rfl (by decide)⟩

/-! ### Serialization distributes over appends -/

theorem textOfNodes_append (l₁ l₂ : List WNode) :
    textOfNodes (l₁ ++ l₂) = textOfNodes l₁ ++ textOfNodes l₂ := by
  induction l₁ with
  | nil => rw [List.nil_append, textOfNodes, String.empty_append]
  | cons n rest ih => rw [List.cons_append, textOfNodes, textOfNodes, ih, String.append_assoc]

theorem textOfNodes_appendStrNodes (l : List WNode) (s : String) :
    textOfNodes (appendStrNodes l s) = textOfNodes l ++ s := by
  induction l with
  | nil =>
    simp [appendStrNodes, textOfNodes, nodeStr, String.append_empty, String.empty_append]
  | cons n rest ih =>
    rcases rest with _ | ⟨m, rest'⟩
    · cases n <;>
        simp [appendStrNodes, textOfNodes, nodeStr, String.append_empty, String.append_assoc]
    · rw [appendStrNodes_cons_cons, textOfNodes, ih]
      simp [textOfNodes, String.append_assoc]

theorem textOfNodes_appendNode (l : List WNode) (n : WNode) :
    textOfNodes (appendNode l n) = textOfNodes l ++ nodeStr n := by
  cases n with
  | str s =>
    by_cases hs : s = "" <;> simp only [appendNode, hs, ite_true, ite_false]
    · rw [nodeStr, String.append_empty]
    · exact textOfNodes_appendStrNodes l s
  | tmpl t =>
    rw [appendNode, textOfNodes_append, textOfNodes, textOfNodes, String.append_empty]

theorem textOfNodes_foldl_appendNode (els : List WNode) (acc : List WNode) :
    textOfNodes (els.foldl appendNode acc) = textOfNodes acc ++ textOfNodes els := by
  induction els generalizing acc with
  | nil => rw [List.foldl_nil, textOfNodes, String.append_empty]
  | cons e rest ih =>
    rw [List.foldl_cons, ih, textOfNodes_appendNode, textOfNodes, String.append_assoc]

theorem textOf_appendVal_str (w : WikiText) (s : String) :
    textOfNodes (w.appendVal (.pstr s)).nodes = textOfNodes w.nodes ++ s := by
  show textOfNodes (appendNode w.nodes (.str s)) = _
  rw [textOfNodes_appendNode, nodeStr]

theorem textOf_appendVal_tmpl (w : WikiText) (t : WikiTemplate) :
    textOfNodes (w.appendVal (.ptmpl t)).nodes
      = textOfNodes w.nodes ++ tmplAsText false t := by
  show textOfNodes (w.nodes ++ [.tmpl t]) = _
  rw [textOfNodes_append, textOfNodes, textOfNodes, nodeStr, String.append_empty]

theorem textOf_appendVal_text (w o : WikiText) :
    textOfNodes (w.appendVal (.ptext o)).nodes
      = textOfNodes w.nodes ++ textOfNodes o.nodes := by
  show textOfNodes (o.nodes.foldl appendNode w.nodes) = _
  exact textOfNodes_foldl_appendNode o.nodes w.nodes

/-! ### The XML parse tree

`Element` mirrors `xml.etree.ElementTree.Element` as used by the tree
builder: a tag, an attribute list, the element's leading text
(`.text`), its trailing text in the parent (`.tail`), and its child
elements in document order.  Absent `.text`/`.tail` (`None`) is
modelled as `""` (see the header note). -/

mutual

inductive Element : Type where
  | mk : String → List (String × String) → String → String → ElementList → Element

inductive ElementList : Type where
  | nil : ElementList
  | cons : Element → ElementList → ElementList

end

def Element.tag : Element → String
  | .mk t _ _ _ _ => t

def Element.attrs : Element → List (String × String)
  | .mk _ a _ _ _ => a

def Element.text : Element → String
  | .mk _ _ t _ _ => t

def Element.tail : Element → String
  | .mk _ _ _ t _ => t

def Element.children : Element → ElementList
  | .mk _ _ _ _ c => c

/-- `x.get(name)` on an element's attributes; a missing attribute
(`None`) is modelled as `""`, which is falsy exactly like `None` in the
only use (`x.get("index") or ...`). -/
def Element.getAttr (e : Element) (name : String) : String :=
  ((e.attrs.lookup name).getD "")

/-- Transient extension-tag record (`WikiExt`): `name`, `attr` and
`close` are element texts (`""` models `None`), `inner` is the parsed
inner `WikiText`. -/
structure WikiExtR : Type where
  name : String
  attr : String
  inner : Option WikiText
  close : String

/-- `f"<{self.name}..."` renders a `None` name as `None`. -/
def extNameStr (s : String) : String :=
  if s = "" then "None" else s

/-- `WikiExt._squash`: `WikiText(f"<{name}{attr or ''}>", inner, close)`.
A missing `inner` or `close` would raise `TypeError` inside
`WikiText.__init__` in Python; that crash path carries no claim and is
modelled by appending nothing. -/
def squashExt (x : WikiExtR) : WikiText :=
  WikiText.ofArgs [.pstr ("<" ++ extNameStr x.name ++ x.attr ++ ">"),
    .ptext (x.inner.getD (.mk [])), .pstr x.close]

/-! ### The tree builder (`WParser._parse_wiki_text` and friends)

Translated from lines 500-591 of `wparser.py`.  `_parse_wiki_text`
starts from the element's leading text and then, for each child in
order: a `template` child is parsed and appended, an `ext` child is
parsed, squashed and appended, any other tag is recursed into when
`flatten` is set and skipped otherwise, and the child's tail text is
appended in every case.  A `<part>` lacking a `<name>` or `<value>`
would make `set_param(None, ...)` raise `TypeError` in Python; such
malformed parts do not occur in the parse-tree format and are skipped
here. -/

/-- Ordered-dict assignment `self._params[key] = value`: replace in
place if the key exists, else append. -/
def setParamL (params : List (String × WikiText)) (k : String) (v : WikiText) :
    List (String × WikiText) :=
  if params.any (fun p => p.1 = k) then
    params.map (fun p => if p.1 = k then (k, v) else p)
  else params ++ [(k, v)]

mutual

def parseWikiText (flatten : Bool) : Element → WikiText
  | .mk _ _ text _ cs =>
    parseChildren flatten cs ((WikiText.mk []).appendVal (.pstr text))

def parseChildren (flatten : Bool) : ElementList → WikiText → WikiText
  | .nil, acc => acc
  | .cons c rest, acc =>
    let acc1 :=
      if c.tag = "template" then acc.appendVal (.ptmpl (parseWikiTemplate c))
      else if c.tag = "ext" then acc.appendVal (.ptext (parseWikiExt c))
      else if flatten then acc.appendVal (.ptext (parseWikiText flatten c))
      else acc
    parseChildren flatten rest (acc1.appendVal (.pstr c.tail))

def parseWikiTemplate : Element → WikiTemplate
  | .mk _ _ _ _ cs => parseTmplChildren cs (.mk none [])

def parseTmplChildren : ElementList → WikiTemplate → WikiTemplate
  | .nil, acc => acc
  | .cons c rest, acc =>
    let acc1 :=
      if c.tag = "title" then
        WikiTemplate.mk (some ((parseWikiText false c).asText true)) acc.params
      else if c.tag = "part" then
        match parsePartEl c with
        | (some k, some v) => WikiTemplate.mk acc.title (setParamL acc.params k v)
        | _ => acc
      else acc
    parseTmplChildren rest acc1

def parsePartEl : Element → Option String × Option WikiText
  | .mk _ _ _ _ cs => parsePartChildren cs (none, none)

/-- `_parse_template_parameter` (lines 580-591).  CAVEAT: on a `name`
child with no `index` attribute and absent (`None`) text, CPython
raises `AttributeError` at `x.text.strip()` (line 587); the model
returns the key `""` instead, so theorems quantifying over parse
trees must exclude empty `<name>` texts (see `wfPartB`). -/
def parsePartChildren : ElementList → Option String × Option WikiText →
    Option String × Option WikiText
  | .nil, acc => acc
  | .cons c rest, acc =>
    let acc1 :=
      if c.tag = "name" then
        (some (if c.getAttr "index" ≠ "" then c.getAttr "index" else pyStrip c.text), acc.2)
      else if c.tag = "value" then (acc.1, some (parseWikiText true c))
      else acc
    parsePartChildren rest acc1

def parseWikiExt : Element → WikiText
  | .mk _ _ _ _ cs => squashExt (parseExtChildren cs ⟨"", "", none, ""⟩)

def parseExtChildren : ElementList → WikiExtR → WikiExtR
  | .nil, acc => acc
  | .cons c rest, acc =>
    let acc1 :=
      if c.tag = "name" then { acc with name := c.text }
      else if c.tag = "attr" then { acc with attr := c.text }
      else if c.tag = "inner" then { acc with inner := some (parseWikiText true c) }
      else if c.tag = "close" then { acc with close := c.text }
      else acc
    parseExtChildren rest acc1

end

/-! ### Positional-parameter trees (claim C3)

In the remote engine's parse-tree format, a template parameter written
without an explicit key appears as a `<part>` whose `<name>` is an
empty element carrying an `index` attribute. -/

def mkIdxPart (idx v : String) : Element :=
  .mk "part" [] "" "" (.cons (.mk "name" [("index", idx)] "" "" .nil)
    (.cons (.mk "value" [] v "" .nil) .nil))

def posPartsEL : List (String × String) → ElementList
  | [] => .nil
  | (i, v) :: rest => .cons (mkIdxPart i v) (posPartsEL rest)

/-- A `<template>` element whose parameters all carry `index` attributes,
i.e. the parse tree of a template whose source omitted explicit keys. -/
def mkPosTemplate (title : String) (ps : List (String × String)) : Element :=
  .mk "template" [] "" "" (.cons (.mk "title" [] title "" .nil) (posPartsEL ps))

/-- Pairwise distinctness of a key list. -/
def distinctKeysB : List String → Bool
  | [] => true
  | k :: rest => (!(rest.any (fun x => x = k))) && distinctKeysB rest

theorem textOfNodes_singleton (n : WNode) : textOfNodes [n] = nodeStr n := by
  rw [textOfNodes, textOfNodes, String.append_empty]

theorem parseWikiText_leaf (fl : Bool) (tag : String) (attrs : List (String × String))
    (text tail : String) :
    parseWikiText fl (.mk tag attrs text tail .nil)
      = (WikiText.mk []).appendVal (.pstr text) := by
  rw [parseWikiText, parseChildren]

/-! Step lemmas unfolding one loop iteration of the tree-builder folds. -/

theorem parseChildren_cons_template (fl : Bool) (c : Element) (rest : ElementList)
    (acc : WikiText) (hc : c.tag = "template") :
    parseChildren fl (.cons c rest) acc
      = parseChildren fl rest
          ((acc.appendVal (.ptmpl (parseWikiTemplate c))).appendVal (.pstr c.tail)) := by
  rw [parseChildren]
  simp [hc]

theorem parseChildren_cons_ext (fl : Bool) (c : Element) (rest : ElementList)
    (acc : WikiText) (hc : c.tag = "ext") :
    parseChildren fl (.cons c rest) acc
      = parseChildren fl rest
          ((acc.appendVal (.ptext (parseWikiExt c))).appendVal (.pstr c.tail)) := by
  rw [parseChildren]
  have h1 : c.tag ≠ "template" := by rw [hc]; decide
  simp [h1, hc]

theorem parseChildren_cons_flat (c : Element) (rest : ElementList)
    (acc : WikiText) (h1 : c.tag ≠ "template") (h2 : c.tag ≠ "ext") :
    parseChildren true (.cons c rest) acc
      = parseChildren true rest
          ((acc.appendVal (.ptext (parseWikiText true c))).appendVal (.pstr c.tail)) := by
  rw [parseChildren]
  simp [h1, h2]

theorem parseChildren_cons_skip (c : Element) (rest : ElementList)
    (acc : WikiText) (h1 : c.tag ≠ "template") (h2 : c.tag ≠ "ext") :
    parseChildren false (.cons c rest) acc
      = parseChildren false rest (acc.appendVal (.pstr c.tail)) := by
  rw [parseChildren]
  simp [h1, h2]

theorem parseTmplChildren_cons_title (c : Element) (rest : ElementList)
    (acc : WikiTemplate) (hc : c.tag = "title") :
    parseTmplChildren (.cons c rest) acc
      = parseTmplChildren rest
          (.mk (some ((parseWikiText false c).asText true)) acc.params) := by
  rw [parseTmplChildren]
  simp [hc]

theorem parseTmplChildren_cons_part (c : Element) (rest : ElementList)
    (acc : WikiTemplate) (k : String) (v : WikiText) (hc : c.tag = "part")
    (hpe : parsePartEl c = (some k, some v)) :
    parseTmplChildren (.cons c rest) acc
      = parseTmplChildren rest (.mk acc.title (setParamL acc.params k v)) := by
  rw [parseTmplChildren]
  have h1 : c.tag ≠ "title" := by rw [hc]; decide
  simp [h1, hc, hpe]

theorem mkIdxPart_tag (idx v : String) : (mkIdxPart idx v).tag = "part" := rfl

theorem parsePartEl_mkIdxPart (idx v : String) (hidx : idx ≠ "") :
    parsePartEl (mkIdxPart idx v)
      = (some idx, some ((WikiText.mk []).appendVal (.pstr v))) := by
  show parsePartChildren _ (none, none) = _
  rw [parsePartChildren, parsePartChildren, parsePartChildren]
  simp [Element.tag, Element.getAttr, Element.attrs, Element.text, Element.children,
    List.lookup, hidx]
  rw [parseWikiText_leaf]

theorem setParamL_fresh (params : List (String × WikiText)) (k : String) (v : WikiText)
    (h : params.any (fun p => p.1 = k) = false) :
    setParamL params k v = params ++ [(k, v)] := by
  rw [setParamL, if_neg (by simp [h])]

theorem parseTmplChildren_pos (ps : List (String × String)) (tl : Option String)
    (acc : List (String × WikiText))
    (hfresh : ∀ p ∈ ps, acc.any (fun q => q.1 = p.1) = false)
    (hdist : distinctKeysB (ps.map Prod.fst) = true)
    (hkeys : ∀ p ∈ ps, p.1 ≠ "") (hvals : ∀ p ∈ ps, p.2 ≠ "") :
    parseTmplChildren (posPartsEL ps) (.mk tl acc)
      = .mk tl (acc ++ ps.map (fun p => (p.1, WikiText.mk [.str p.2]))) := by
  induction ps generalizing acc with
  | nil =>
    rw [posPartsEL, parseTmplChildren]
    simp
  | cons p rest ih =>
    obtain ⟨i, v⟩ := p
    have hi : i ≠ "" := hkeys (i, v) (by simp)
    have hv : v ≠ "" := hvals (i, v) (by simp)
    have hval : ((WikiText.mk []).appendVal (.pstr v)) = WikiText.mk [.str v] := by
      show WikiText.mk (appendNode [] (.str v)) = _
      rw [appendNode, if_neg hv, appendStrNodes]
    rw [posPartsEL, parseTmplChildren_cons_part (mkIdxPart i v) _ _ i (WikiText.mk [.str v])
      (mkIdxPart_tag i v) (by rw [parsePartEl_mkIdxPart i v hi, hval])]
    simp only [WikiTemplate.title, WikiTemplate.params]
    rw [setParamL_fresh acc i (WikiText.mk [.str v]) (hfresh (i, v) (by simp))]
    simp only [List.map_cons, distinctKeysB, Bool.and_eq_true, Bool.not_eq_true'] at hdist
    rw [ih (acc ++ [(i, WikiText.mk [.str v])])
      (by
        intro q hq
        simp only [List.any_append, Bool.or_eq_false_iff]
        refine ⟨hfresh q (by simp [hq]), ?_⟩
        have h1 : ∀ x ∈ List.map Prod.fst rest, ¬ (x = i) := by
          intro x hx hxi
          have := hdist.1
          simp only [List.any_eq_false, decide_eq_true_eq] at this
          exact this x hx hxi
        have hqi : ¬ (q.1 = i) := h1 q.1 (List.mem_map_of_mem Prod.fst hq)
        have h2 : ¬ (i = q.1) := fun h => hqi h.symm
        simp [h2])
      hdist.2 (fun q hq => hkeys q (by simp [hq])) (fun q hq => hvals q (by simp [hq]))]
    simp [List.append_assoc]

theorem asText_empty_appendStr (s : String) :
    ((WikiText.mk []).appendVal (.pstr s)).asText true = pyStrip s := by
  by_cases hs : s = ""
  · subst hs; rfl
  · show pyStrip (textOfNodes ((WikiText.mk (appendNode [] (.str s)))).nodes) = pyStrip s
    rw [appendNode, if_neg hs, appendStrNodes, WikiText.nodes, textOfNodes_singleton, nodeStr]

/-- The explicit `|k=v` rendering of a parameter list, used to state the
serialized form of a template. -/
def joinParams : List (String × String) → String
  | [] => ""
  | p :: rest => "|" ++ p.1 ++ "=" ++ p.2 ++ joinParams rest

theorem paramsStr_pos (ps : List (String × String)) (h : ∀ p ∈ ps, pyStrip p.2 = p.2) :
    paramsStr false (ps.map fun p => (p.1, WikiText.mk [.str p.2])) = joinParams ps := by
  induction ps with
  | nil => rfl
  | cons p rest ih =>
    obtain ⟨i, v⟩ := p
    rw [List.map_cons, paramsStr, joinParams]
    rw [strOfText, textOfNodes_singleton, nodeStr, h (i, v) (by simp),
      ih (fun q hq => h q (by simp [hq]))]
    simp [String.append_assoc, String.empty_append]

/-- C3: parsing a template whose source omitted explicit keys (each
`name` element carrying an `index` attribute) yields a `WikiTemplate`
whose parameter keys are the index strings mapped to the values in
encounter order, and `as_text()` renders the explicit `|k=v` form. -/
theorem c3_positional_key_synthesis (T : String) (ps : List (String × String))
    (hT : pyStrip T = T)
    (hdist : distinctKeysB (ps.map Prod.fst) = true)
    (hkeys : ∀ p ∈ ps, p.1 ≠ "")
    (hvals : ∀ p ∈ ps, p.2 ≠ "" ∧ pyStrip p.2 = p.2) :
    parseWikiTemplate (mkPosTemplate T ps)
      = .mk (some T) (ps.map fun p => (p.1, WikiText.mk [.str p.2]))
    ∧ tmplAsText false (parseWikiTemplate (mkPosTemplate T ps))
      = "\x7b\x7b" ++ T ++ joinParams ps ++ "\x7d\x7d" := by
  have hparse : parseWikiTemplate (mkPosTemplate T ps)
      = .mk (some T) (ps.map fun p => (p.1, WikiText.mk [.str p.2])) := by
    show parseTmplChildren (.cons (.mk "title" [] T "" .nil) (posPartsEL ps)) (.mk none []) = _
    rw [parseTmplChildren_cons_title (.mk "title" [] T "" .nil) (posPartsEL ps) (.mk none []) rfl,
      parseWikiText_leaf, asText_empty_appendStr, hT]
    rw [show (WikiTemplate.mk none []).params = [] from rfl]
    rw [parseTmplChildren_pos ps (some T) [] (by simp) hdist hkeys
      (fun p hp => (hvals p hp).1)]
    simp
  refine ⟨hparse, ?_⟩
  rw [hparse, tmplAsText, pyStrTitle, paramsStr_pos ps (fun p hp => (hvals p hp).2)]
  simp [String.append_assoc, String.append_empty]

/-- C3 witness: `\x7b\x7bX|a|b|c\x7d\x7d` parses to keys `1`, `2`, `3` with values
`a`, `b`, `c` and serializes to the explicit form. -/
theorem c3_positional_key_synthesis_witness :
    parseWikiTemplate (mkPosTemplate "X" [("1", "a"), ("2", "b"), ("3", "c")])
      = .mk (some "X") [("1", .mk [.str "a"]), ("2", .mk [.str "b"]), ("3", .mk [.str "c"])]
    ∧ tmplAsText false (parseWikiTemplate (mkPosTemplate "X" [("1", "a"), ("2", "b"), ("3", "c")]))
      = "\x7b\x7bX|1=a|2=b|3=c\x7d\x7d" := by
  have h := c3_positional_key_synthesis "X" [("1", "a"), ("2", "b"), ("3", "c")]
    (by decide) (by decide) (by decide) (by decide)
  exact ⟨h.1, h.2.trans (by decide)⟩

/-! ### The source text of a parse tree -/

mutual

/-- Modelled from the spec: the remote parse engine's XML parse-tree
format is an external collaborator of this repository and is not part
of its source; this definition reconstructs the wikitext source `S` a
parse tree represents, following the spec's description of the format
(section 4.2): a `template` element wraps its content in double braces
and each `part` contributes a leading pipe (a positional `name` is an
empty element carrying an `index` attribute, a named `part` carries the
literal `=` as the name's tail text); an `ext` element's source is the
reconstructed `<name attr>` opening tag followed by the inner content
and the literal closing text; any other element (root, headings,
comments, directives) contributes its text and children verbatim. -/
def sourceOf : Element → String
  | .mk tag _ text _ cs =>
    if tag = "template" then "\x7b\x7b" ++ text ++ sourceOfList cs ++ "\x7d\x7d"
    else if tag = "part" then "|" ++ text ++ sourceOfList cs
    else if tag = "ext" then extSourceFold cs ("", "", "", "")
    else text ++ sourceOfList cs

def sourceOfList : ElementList → String
  | .nil => ""
  | .cons c rest => sourceOf c ++ c.tail ++ sourceOfList rest

def extSourceFold : ElementList → String × String × String × String → String
  | .nil, (n, a, i, c) => "<" ++ n ++ a ++ ">" ++ i ++ c
  | .cons ch rest, (n, a, i, c) =>
    extSourceFold rest
      (if ch.tag = "name" then (ch.text, a, i, c)
       else if ch.tag = "attr" then (n, ch.text, i, c)
       else if ch.tag = "inner" then (n, a, contentSource ch, c)
       else if ch.tag = "close" then (n, a, i, ch.text)
       else (n, a, i, c))

/-- The source of an element's content (text and children), without the
decoration its own tag contributes. -/
def contentSource : Element → String
  | .mk _ _ text _ cs => text ++ sourceOfList cs

end

/-! ### Well-formed parse trees

`wfEl` captures the shape of parse trees for which the builder's output
reproduces the source byte for byte: every template has its `title`
child first (childless, with pre-stripped text) followed only by
`part` children; every part carries an explicit, non-empty,
pre-stripped, childless `name` (no `index` attribute — an empty
`<name>` text would make CPython raise `AttributeError` at
`x.text.strip()`, wparser.py line 587) with the `=` separator as its
tail, then a `value` whose content is unchanged by stripping (the
serializer renders parameter values through `str()`, which strips
them); part keys are pairwise distinct (the parameter dict collapses
duplicates); `ext` elements have exactly the four standard children;
and no stray text or tail appears where the builder ignores it. -/

/-- The characters Python's `str.strip()` removes beyond the ASCII
whitespace of `Char.isWhitespace` (space, tab, CR, LF): vertical
tab, form feed, the separator controls, NEL, NBSP and the Unicode
space characters. -/
def pyExtraSpace (c : Char) : Bool :=
  c = '\x0b' || c = '\x0c' || c = '\x1c' || c = '\x1d' || c = '\x1e' || c = '\x1f' ||
  c = '\x85' || c = '\xa0' || c = '\u1680' ||
  (0x2000 ≤ c.toNat && c.toNat ≤ 0x200a) ||
  c = '\u2028' || c = '\u2029' || c = '\u202F' || c = '\u205F' || c = '\u3000'

/-- `s` neither starts nor ends with a character of `pyExtraSpace`:
on such strings `pyStrip` computes exactly what `str.strip()` does,
so the round-trip domain demands it wherever the program strips. -/
def pyNoExoticEdge (s : String) : Bool :=
  (match s.data.head? with
   | none => true
   | some c => !pyExtraSpace c) &&
  (match s.data.getLast? with
   | none => true
   | some c => !pyExtraSpace c)

def elNoChildren : Element → Bool
  | .mk _ _ _ _ .nil => true
  | _ => false

/-- The parameter keys the builder computes for a list of `part`
elements, in encounter order. -/
def wfPartKeys : ElementList → List String
  | .nil => []
  | .cons p rest =>
    (match parsePartEl p with
     | (some k, _) => [k]
     | _ => []) ++ wfPartKeys rest

/-- The parameter list the builder accumulates from a list of `part`
elements, in encounter order. -/
def wfPartsParams : ElementList → List (String × WikiText)
  | .nil => []
  | .cons p rest =>
    (match parsePartEl p with
     | (some k, some v) => [(k, v)]
     | _ => []) ++ wfPartsParams rest

mutual

def wfEl : Element → Bool
  | .mk tag _ text _ cs =>
    if tag = "template" then wfTemplateBody text cs
    else if tag = "ext" then wfExtBody text cs
    else if tag = "part" then false
    else wfList cs

def wfList : ElementList → Bool
  | .nil => true
  | .cons c rest => wfEl c && wfList rest

def wfTemplateBody (text : String) (cs : ElementList) : Bool :=
  match cs with
  | .cons t parts =>
    (text == "") && (t.tag == "title") && (t.tail == "") && elNoChildren t &&
      (pyStrip t.text == t.text) && pyNoExoticEdge t.text &&
      wfParts parts && distinctKeysB (wfPartKeys parts)
  | .nil => false

def wfParts : ElementList → Bool
  | .nil => true
  | .cons p rest => wfPartB p && wfParts rest

def wfPartB : Element → Bool
  | .mk tag _ text tail (.cons nm (.cons (.mk vtag _ vtext vtail vcs) .nil)) =>
    (tag == "part") && (text == "") && (tail == "") &&
      (nm.tag == "name") && (nm.tail == "=") && elNoChildren nm &&
      (nm.getAttr "index" == "") && (nm.text != "") && (pyStrip nm.text == nm.text) &&
      pyNoExoticEdge nm.text &&
      (vtag == "value") && (vtail == "") && wfList vcs &&
      (pyStrip (vtext ++ sourceOfList vcs) == vtext ++ sourceOfList vcs) &&
      pyNoExoticEdge (vtext ++ sourceOfList vcs)
  | _ => false

def wfExtBody (text : String) (cs : ElementList) : Bool :=
  match cs with
  | .cons c1 (.cons c2 (.cons (.mk itag _ _itext itail ics) (.cons c4 .nil))) =>
    (text == "") && (c1.tag == "name") && (c1.tail == "") && elNoChildren c1 &&
      (c1.text != "") && (c2.tag == "attr") && (c2.tail == "") && elNoChildren c2 &&
      (itag == "inner") && (itail == "") && wfList ics &&
      (c4.tag == "close") && (c4.tail == "") && elNoChildren c4 && (c4.text != "")
  | _ => false

end

/-! ### Round-trip lemmas -/

theorem textOf_empty_appendStr (s : String) :
    textOfNodes ((WikiText.mk []).appendVal (.pstr s)).nodes = s := by
  rw [textOf_appendVal_str]
  show "" ++ s = s
  exact String.empty_append s

theorem sourceOf_generic (tag : String) (attrs : List (String × String))
    (text tail : String) (cs : ElementList)
    (h1 : tag ≠ "template") (h2 : tag ≠ "part") (h3 : tag ≠ "ext") :
    sourceOf (.mk tag attrs text tail cs) = text ++ sourceOfList cs := by
  rw [sourceOf]
  simp [h1, h2, h3]

theorem parsePartEl_wf (ptag : String) (pattrs : List (String × String)) (ptext ptail : String)
    (nattrs : List (String × String)) (ntext ntail : String)
    (vattrs : List (String × String)) (vtext vtail : String) (vcs : ElementList)
    (hidx : (nattrs.lookup "index").getD "" = "") :
    parsePartEl (.mk ptag pattrs ptext ptail
        (.cons (.mk "name" nattrs ntext ntail .nil)
          (.cons (.mk "value" vattrs vtext vtail vcs) .nil)))
      = (some (pyStrip ntext),
          some (parseWikiText true (.mk "value" vattrs vtext vtail vcs))) := by
  show parsePartChildren _ (none, none) = _
  rw [parsePartChildren, parsePartChildren, parsePartChildren]
  simp [Element.tag, Element.getAttr, Element.attrs, Element.text, hidx]

theorem parseTmplChildren_wfParts (tl : Option String) :
    ∀ (parts : ElementList) (acc : List (String × WikiText)),
      wfParts parts = true →
      (∀ k ∈ wfPartKeys parts, acc.any (fun q => q.1 = k) = false) →
      distinctKeysB (wfPartKeys parts) = true →
      parseTmplChildren parts (.mk tl acc) = .mk tl (acc ++ wfPartsParams parts)
  | .nil, acc, _, _, _ => by rw [parseTmplChildren, wfPartsParams]; simp
  | .cons p rest, acc, h, hfresh, hdist => by
    rw [wfParts, Bool.and_eq_true] at h
    obtain ⟨hp, hrest⟩ := h
    rcases p with ⟨ptag, pattrs, ptext, ptail, pcs⟩
    rcases pcs with _ | ⟨nm, pcs2⟩
    · simp [wfPartB] at hp
    rcases pcs2 with _ | ⟨vl, pcs3⟩
    · simp [wfPartB] at hp
    rcases vl with ⟨vtag, vattrs, vtext, vtail, vcs⟩
    rcases pcs3 with _ | ⟨x, pcs4⟩
    case intro.mk.cons.cons.mk.cons => simp [wfPartB] at hp
    rw [wfPartB] at hp
    simp only [Bool.and_eq_true, beq_iff_eq, bne_iff_ne] at hp
    obtain ⟨⟨⟨⟨⟨⟨⟨⟨⟨⟨⟨⟨⟨⟨hptag, hptext⟩, hptail⟩, hnmtag⟩, hnmtail⟩, hnmnc⟩, hnmidx⟩,
      hnmne⟩, hnmstrip⟩, hnmclean⟩, hvtag⟩, hvtail⟩, hwfv⟩, hvstrip⟩, hvclean⟩ := hp
    rcases nm with ⟨ntag, nattrs, ntext, ntail, ncs⟩
    rcases ncs with _ | ⟨y, ncs2⟩
    case mk.cons => simp [elNoChildren] at hnmnc
    simp only [Element.tag, Element.tail, Element.text, Element.getAttr,
      Element.attrs] at hnmtag hnmtail hnmidx hnmstrip
    subst hptag hptext hptail hnmtag hnmtail hvtag hvtail
    have hpe := parsePartEl_wf "part" pattrs "" "" nattrs ntext "=" vattrs vtext "" vcs hnmidx
    have hkeys : wfPartKeys (.cons (.mk "part" pattrs "" ""
        (.cons (.mk "name" nattrs ntext "=" .nil)
          (.cons (.mk "value" vattrs vtext "" vcs) .nil))) rest)
        = pyStrip ntext :: wfPartKeys rest := by
      rw [wfPartKeys, hpe]; exact rfl
    have hparams : wfPartsParams (.cons (.mk "part" pattrs "" ""
        (.cons (.mk "name" nattrs ntext "=" .nil)
          (.cons (.mk "value" vattrs vtext "" vcs) .nil))) rest)
        = (pyStrip ntext, parseWikiText true (.mk "value" vattrs vtext "" vcs))
            :: wfPartsParams rest := by
      rw [wfPartsParams, hpe]; exact rfl
    rw [parseTmplChildren_cons_part (.mk "part" pattrs "" ""
        (.cons (.mk "name" nattrs ntext "=" .nil)
          (.cons (.mk "value" vattrs vtext "" vcs) .nil))) rest (.mk tl acc) (pyStrip ntext)
      (parseWikiText true (.mk "value" vattrs vtext "" vcs)) rfl hpe]
    simp only [WikiTemplate.title, WikiTemplate.params]
    rw [hkeys] at hfresh hdist
    rw [setParamL_fresh acc (pyStrip ntext) _ (hfresh _ (by simp))]
    rw [distinctKeysB, Bool.and_eq_true] at hdist
    rw [parseTmplChildren_wfParts tl rest (acc ++ [(pyStrip ntext,
        parseWikiText true (.mk "value" vattrs vtext "" vcs))]) hrest (fun k hk => ?_)
      hdist.2, hparams]
    · simp [List.append_assoc]
    · simp only [List.any_append, Bool.or_eq_false_iff]
      refine ⟨hfresh k (by simp [hk]), ?_⟩
      have hne : ¬ (pyStrip ntext = k) := by
        have := hdist.1
        simp only [Bool.not_eq_true', List.any_eq_false, decide_eq_true_eq] at this
        exact fun hc => this k hk hc.symm
      simp [hne]


theorem strOfText_eq (w : WikiText) : strOfText w = pyStrip (textOfNodes w.nodes) := by
  cases w; rfl

theorem elNoChildren_eq (tag : String) (attrs : List (String × String)) (text tail : String)
    (cs : ElementList) (h : elNoChildren (.mk tag attrs text tail cs) = true) : cs = .nil := by
  rcases cs with _ | ⟨c, cs2⟩
  · rfl
  · simp [elNoChildren] at h

theorem textOf_squashExt (x : WikiExtR) :
    textOfNodes (squashExt x).nodes
      = "<" ++ extNameStr x.name ++ x.attr ++ ">"
        ++ textOfNodes (x.inner.getD (.mk [])).nodes ++ x.close := by
  show textOfNodes ((((WikiText.mk []).appendVal
      (.pstr ("<" ++ extNameStr x.name ++ x.attr ++ ">"))).appendVal
      (.ptext (x.inner.getD (.mk [])))).appendVal (.pstr x.close)).nodes = _
  rw [textOf_appendVal_str, textOf_appendVal_text, textOf_empty_appendStr]

theorem parseExtChildren_cons_name (a : List (String × String)) (x t : String)
    (k rest : ElementList) (acc : WikiExtR) :
    parseExtChildren (.cons (.mk "name" a x t k) rest) acc
      = parseExtChildren rest { acc with name := x } := by
  rw [parseExtChildren]
  simp [Element.tag, Element.text]

theorem parseExtChildren_cons_attr (a : List (String × String)) (x t : String)
    (k rest : ElementList) (acc : WikiExtR) :
    parseExtChildren (.cons (.mk "attr" a x t k) rest) acc
      = parseExtChildren rest { acc with attr := x } := by
  rw [parseExtChildren]
  simp [Element.tag, Element.text]

theorem parseExtChildren_cons_inner (a : List (String × String)) (x t : String)
    (k rest : ElementList) (acc : WikiExtR) :
    parseExtChildren (.cons (.mk "inner" a x t k) rest) acc
      = parseExtChildren rest
          { acc with inner := some (parseWikiText true (.mk "inner" a x t k)) } := by
  rw [parseExtChildren]
  simp [Element.tag, Element.text]

theorem parseExtChildren_cons_close (a : List (String × String)) (x t : String)
    (k rest : ElementList) (acc : WikiExtR) :
    parseExtChildren (.cons (.mk "close" a x t k) rest) acc
      = parseExtChildren rest { acc with close := x } := by
  rw [parseExtChildren]
  simp [Element.tag, Element.text]

theorem extSourceFold_cons_name (a : List (String × String)) (x t : String)
    (k rest : ElementList) (n a0 i c : String) :
    extSourceFold (.cons (.mk "name" a x t k) rest) (n, a0, i, c)
      = extSourceFold rest (x, a0, i, c) := by
  rw [extSourceFold]
  simp [Element.tag, Element.text]

theorem extSourceFold_cons_attr (a : List (String × String)) (x t : String)
    (k rest : ElementList) (n a0 i c : String) :
    extSourceFold (.cons (.mk "attr" a x t k) rest) (n, a0, i, c)
      = extSourceFold rest (n, x, i, c) := by
  rw [extSourceFold]
  simp [Element.tag, Element.text]

theorem extSourceFold_cons_inner (a : List (String × String)) (x t : String)
    (k rest : ElementList) (n a0 i c : String) :
    extSourceFold (.cons (.mk "inner" a x t k) rest) (n, a0, i, c)
      = extSourceFold rest (n, a0, contentSource (.mk "inner" a x t k), c) := by
  rw [extSourceFold]
  simp [Element.tag, Element.text]

theorem extSourceFold_cons_close (a : List (String × String)) (x t : String)
    (k rest : ElementList) (n a0 i c : String) :
    extSourceFold (.cons (.mk "close" a x t k) rest) (n, a0, i, c)
      = extSourceFold rest (n, a0, i, x) := by
  rw [extSourceFold]
  simp [Element.tag, Element.text]

mutual

theorem rtList : ∀ (cs : ElementList) (acc : WikiText), wfList cs = true →
    textOfNodes (parseChildren true cs acc).nodes
      = textOfNodes acc.nodes ++ sourceOfList cs
  | .nil, acc, _ => by
    rw [parseChildren, sourceOfList, String.append_empty]
  | .cons (.mk ctag cattrs ctext ctail ccs) rest, acc, h => by
    rw [wfList, Bool.and_eq_true] at h
    obtain ⟨hc, hrest⟩ := h
    by_cases h1 : ctag = "template"
    · subst h1
      rw [parseChildren_cons_template true (.mk "template" cattrs ctext ctail ccs) rest acc rfl,
        rtList rest _ hrest, textOf_appendVal_str, textOf_appendVal_tmpl,
        rtTmpl cattrs ctext ctail ccs hc, sourceOfList]
      simp only [Element.tail, String.append_assoc]
    · by_cases h2 : ctag = "ext"
      · subst h2
        rw [parseChildren_cons_ext true (.mk "ext" cattrs ctext ctail ccs) rest acc rfl,
          rtList rest _ hrest, textOf_appendVal_str, textOf_appendVal_text,
          rtExt cattrs ctext ctail ccs hc, sourceOfList]
        simp only [Element.tail, String.append_assoc]
      · rw [parseChildren_cons_flat (.mk ctag cattrs ctext ctail ccs) rest acc h1 h2,
          rtList rest _ hrest, textOf_appendVal_str, textOf_appendVal_text,
          rtEl ctag cattrs ctext ctail ccs hc h1 h2, sourceOfList]
        simp only [Element.tail, String.append_assoc]
termination_by cs _ _ => 2 * sizeOf cs

theorem rtEl (tag : String) (attrs : List (String × String)) (text tail : String)
    (cs : ElementList) (h : wfEl (.mk tag attrs text tail cs) = true)
    (h1 : tag ≠ "template") (h2 : tag ≠ "ext") :
    textOfNodes (parseWikiText true (.mk tag attrs text tail cs)).nodes
      = sourceOf (.mk tag attrs text tail cs) := by
  rw [wfEl, if_neg h1, if_neg h2] at h
  by_cases h3 : tag = "part"
  · rw [if_pos h3] at h
    exact absurd h (by simp)
  · rw [if_neg h3] at h
    rw [parseWikiText, rtList cs _ h, textOf_empty_appendStr,
      sourceOf_generic tag attrs text tail cs h1 h3 h2]
termination_by 2 * sizeOf cs + 1

theorem rtTmpl : ∀ (attrs : List (String × String)) (text tail : String) (cs : ElementList),
    wfEl (.mk "template" attrs text tail cs) = true →
    tmplAsText false (parseWikiTemplate (.mk "template" attrs text tail cs))
      = sourceOf (.mk "template" attrs text tail cs)
  | attrs, text, tail, .nil, h => by
    rw [wfEl, if_pos rfl] at h
    exact Bool.noConfusion h
  | attrs, text, tail, .cons (.mk ttag tattrs ttext ttail tcs) parts, h => by
    rw [wfEl, if_pos rfl, wfTemplateBody] at h
    simp only [Bool.and_eq_true, beq_iff_eq, Element.tag, Element.tail, Element.text] at h
    obtain ⟨⟨⟨⟨⟨⟨⟨htext, httag⟩, httail⟩, htnc⟩, htstrip⟩, htclean⟩, hparts⟩, hdist⟩ := h
    subst htext httag httail
    have htcs : tcs = .nil := elNoChildren_eq _ _ _ _ _ htnc
    subst htcs
    rw [parseWikiTemplate,
      parseTmplChildren_cons_title (.mk "title" tattrs ttext "" .nil) parts (.mk none []) rfl,
      parseWikiText_leaf, asText_empty_appendStr, htstrip]
    rw [show (WikiTemplate.mk none []).params = [] from rfl]
    rw [parseTmplChildren_wfParts (some ttext) parts [] hparts (by simp) hdist]
    rw [tmplAsText, pyStrTitle, List.nil_append, rtParams parts hparts]
    rw [sourceOf, if_pos rfl, sourceOfList,
      sourceOf_generic "title" tattrs ttext "" .nil (by decide) (by decide) (by decide),
      sourceOfList]
    simp [Element.tail, String.append_empty, String.empty_append, String.append_assoc]
termination_by _ _ _ cs _ => 2 * sizeOf cs + 1

theorem rtExt : ∀ (attrs : List (String × String)) (text tail : String) (cs : ElementList),
    wfEl (.mk "ext" attrs text tail cs) = true →
    textOfNodes (parseWikiExt (.mk "ext" attrs text tail cs)).nodes
      = sourceOf (.mk "ext" attrs text tail cs)
  | attrs, text, tail,
      .cons (.mk t1 a1 x1 l1 k1) (.cons (.mk t2 a2 x2 l2 k2)
        (.cons (.mk itag iattrs itext itail ics) (.cons (.mk t4 a4 x4 l4 k4) .nil))), h => by
    rw [wfEl, if_neg (by decide), if_pos rfl, wfExtBody] at h
    simp only [Bool.and_eq_true, beq_iff_eq, bne_iff_ne, Element.tag, Element.tail,
      Element.text] at h
    obtain ⟨⟨⟨⟨⟨⟨⟨⟨⟨⟨⟨⟨⟨⟨htext, h1tag⟩, h1tail⟩, h1nc⟩, h1ne⟩, h2tag⟩, h2tail⟩, h2nc⟩,
      hitag⟩, hitail⟩, hwfi⟩, h4tag⟩, h4tail⟩, h4nc⟩, h4ne⟩ := h
    subst htext h1tag h1tail h2tag h2tail hitag hitail h4tag h4tail
    have hk1 : k1 = .nil := elNoChildren_eq _ _ _ _ _ h1nc
    have hk2 : k2 = .nil := elNoChildren_eq _ _ _ _ _ h2nc
    have hk4 : k4 = .nil := elNoChildren_eq _ _ _ _ _ h4nc
    subst hk1 hk2 hk4
    rw [parseWikiExt, parseExtChildren_cons_name, parseExtChildren_cons_attr,
      parseExtChildren_cons_inner, parseExtChildren_cons_close, parseExtChildren]
    rw [textOf_squashExt]
    show "<" ++ extNameStr x1 ++ x2 ++ ">"
        ++ textOfNodes (parseWikiText true (.mk "inner" iattrs itext "" ics)).nodes ++ x4 = _
    rw [extNameStr, if_neg h1ne]
    have hwfinner : wfEl (.mk "inner" iattrs itext "" ics) = true := by
      rw [wfEl, if_neg (by decide), if_neg (by decide), if_neg (by decide)]
      exact hwfi
    rw [rtEl "inner" iattrs itext "" ics hwfinner (by decide) (by decide)]
    rw [sourceOf_generic "inner" iattrs itext "" ics (by decide) (by decide) (by decide)]
    rw [sourceOf, if_neg (by decide), if_neg (by decide), if_pos rfl]
    rw [extSourceFold_cons_name, extSourceFold_cons_attr, extSourceFold_cons_inner,
      extSourceFold_cons_close, extSourceFold, contentSource]
  | attrs, text, tail, .nil, h => by
    rw [wfEl, if_neg (by decide), if_pos rfl] at h
    exact Bool.noConfusion h
  | attrs, text, tail, .cons c1 .nil, h => by
    rw [wfEl, if_neg (by decide), if_pos rfl] at h
    exact Bool.noConfusion h
  | attrs, text, tail, .cons c1 (.cons c2 .nil), h => by
    rw [wfEl, if_neg (by decide), if_pos rfl] at h
    exact Bool.noConfusion h
  | attrs, text, tail, .cons c1 (.cons c2 (.cons (.mk t3 a3 x3 l3 k3) .nil)), h => by
    rw [wfEl, if_neg (by decide), if_pos rfl] at h
    exact Bool.noConfusion h
  | attrs, text, tail,
      .cons c1 (.cons c2 (.cons (.mk t3 a3 x3 l3 k3) (.cons c4 (.cons c5 cs6)))), h => by
    rw [wfEl, if_neg (by decide), if_pos rfl] at h
    exact Bool.noConfusion h
termination_by _ _ _ cs _ => 2 * sizeOf cs + 1

theorem rtParams : ∀ (parts : ElementList), wfParts parts = true →
    paramsStr false (wfPartsParams parts) = sourceOfList parts
  | .nil, _ => rfl
  | .cons (.mk ptag pattrs ptext ptail
      (.cons nm (.cons (.mk vtag vattrs vtext vtail vcs) .nil))) rest, h => by
    rw [wfParts, Bool.and_eq_true] at h
    obtain ⟨hp, hrest⟩ := h
    rw [wfPartB] at hp
    simp only [Bool.and_eq_true, beq_iff_eq, bne_iff_ne, Element.tag, Element.tail,
      Element.text, Element.getAttr, Element.attrs] at hp
    obtain ⟨⟨⟨⟨⟨⟨⟨⟨⟨⟨⟨⟨⟨⟨hptag, hptext⟩, hptail⟩, hnmtag⟩, hnmtail⟩, hnmnc⟩, hnmidx⟩,
      hnmne⟩, hnmstrip⟩, hnmclean⟩, hvtag⟩, hvtail⟩, hwfv⟩, hvstrip⟩, hvclean⟩ := hp
    subst hptag hptext hptail hvtag hvtail
    rcases nm with ⟨ntag, nattrs, ntext, ntail, ncs⟩
    simp only [Element.tag, Element.tail, Element.text, Element.getAttr,
      Element.attrs] at hnmtag hnmtail hnmidx hnmstrip
    subst hnmtag hnmtail
    have hncs : ncs = .nil := elNoChildren_eq _ _ _ _ _ hnmnc
    subst hncs
    have hpe := parsePartEl_wf "part" pattrs "" "" nattrs ntext "=" vattrs vtext "" vcs hnmidx
    rw [wfPartsParams, hpe]
    show paramsStr false ((pyStrip ntext,
      parseWikiText true (.mk "value" vattrs vtext "" vcs)) :: wfPartsParams rest) = _
    rw [paramsStr, rtParams rest hrest, strOfText_eq]
    have hwfvalue : wfEl (.mk "value" vattrs vtext "" vcs) = true := by
      rw [wfEl, if_neg (by decide), if_neg (by decide), if_neg (by decide)]
      exact hwfv
    rw [rtEl "value" vattrs vtext "" vcs hwfvalue (by decide) (by decide)]
    rw [sourceOf_generic "value" vattrs vtext "" vcs (by decide) (by decide) (by decide)]
    rw [hvstrip, hnmstrip]
    simp [sourceOfList, sourceOf, Element.tail, String.append_empty, String.empty_append,
      String.append_assoc]
  | .cons (.mk ptag pattrs ptext ptail .nil) rest, h => by
    rw [wfParts, Bool.and_eq_true] at h
    exact Bool.noConfusion h.1
  | .cons (.mk ptag pattrs ptext ptail (.cons nm .nil)) rest, h => by
    rw [wfParts, Bool.and_eq_true] at h
    exact Bool.noConfusion h.1
  | .cons (.mk ptag pattrs ptext ptail
      (.cons nm (.cons (.mk vtag vattrs vtext vtail vcs) (.cons x pcs4)))) rest, h => by
    rw [wfParts, Bool.and_eq_true] at h
    exact Bool.noConfusion h.1
termination_by parts _ => 2 * sizeOf parts + 1

end

/-- The parse tree of the source text `\x7b\x7bWe|have a|Hulk\x7d\x7d`, whose template
omits explicit parameter keys. -/
def elWe : Element :=
  .mk "root" [] "" "" (.cons (mkPosTemplate "We" [("1", "have a"), ("2", "Hulk")]) .nil)

/-- C1: the round-trip law fails as stated: for the source text
`\x7b\x7bWe|have a|Hulk\x7d\x7d` (a template with positional parameters), the tree
built by `_parse_wiki_text` serializes to the explicit form
`\x7b\x7bWe|1=have a|2=Hulk\x7d\x7d`, not to the original text. -/
theorem c1_roundtrip_counterexample :
    sourceOf elWe = "\x7b\x7bWe|have a|Hulk\x7d\x7d"
    ∧ (parseWikiText true elWe).asText false = "\x7b\x7bWe|1=have a|2=Hulk\x7d\x7d"
    ∧ (parseWikiText true elWe).asText false ≠ sourceOf elWe :=
  ⟨by decide, by decide, by decide⟩

/-- C1 (amended): `as_text(trim=False)` of the tree built by
`_parse_wiki_text` (flatten enabled) reproduces the source text exactly
for every well-formed parse tree (`wfEl`): templates whose parts all
carry explicit, non-empty, pre-stripped, pairwise-distinct keys with
the standard `name`/`=`/`value` shape and strip-invariant values,
pre-stripped comment-free titles, standard four-child `ext` elements,
and no stray text where the builder ignores it.  Positional (`index`)
parameters are excluded: the counterexample shows they serialize to
explicit `k=v` form.  Empty `<name>` texts are excluded too: there
CPython raises `AttributeError` (line 587) instead of round-tripping. -/
theorem c1_roundtrip_amended (tag : String) (attrs : List (String × String))
    (text tail : String) (cs : ElementList)
    (h : wfEl (.mk tag attrs text tail cs) = true)
    (h1 : tag ≠ "template") (h2 : tag ≠ "ext") :
    (parseWikiText true (.mk tag attrs text tail cs)).asText false
      = sourceOf (.mk tag attrs text tail cs) :=
  rtEl tag attrs text tail cs h h1 h2

/-- The children of a concrete well-formed parse tree: a comment
followed by a template with explicit keys. -/
def elC1Children : ElementList :=
  .cons (.mk "comment" [] "<!--\nI came\n-->" " to bargain\n" .nil)
    (.cons (.mk "template" [] "" ""
      (.cons (.mk "title" [] "Tlp" "" .nil)
        (.cons (.mk "part" [] "" ""
          (.cons (.mk "name" [] "foo" "=" .nil)
            (.cons (.mk "value" [] "I am" "" .nil) .nil)))
          (.cons (.mk "part" [] "" ""
            (.cons (.mk "name" [] "1" "=" .nil)
              (.cons (.mk "value" [] "inevitable" "" .nil) .nil))) .nil)))) .nil)

/-- C1 witness: the amended round-trip law at a concrete tree holding a
comment, plain text and a template with explicit keys. -/
theorem c1_roundtrip_amended_witness :
    wfEl (.mk "root" [] "Dormammu,\n" "" elC1Children) = true
    ∧ sourceOf (.mk "root" [] "Dormammu,\n" "" elC1Children)
      = "Dormammu,\n<!--\nI came\n--> to bargain\n\x7b\x7bTlp|foo=I am|1=inevitable\x7d\x7d"
    ∧ (parseWikiText true (.mk "root" [] "Dormammu,\n" "" elC1Children)).asText false
      = sourceOf (.mk "root" [] "Dormammu,\n" "" elC1Children) :=
  ⟨by decide, by decide,
    c1_roundtrip_amended "root" [] "Dormammu,\n" "" elC1Children
      (by decide) (by decide) (by decide)⟩

/-! ### Parameter lookups (`pop`, `get_param`, `__setitem__`) -/

/-- Python truthiness of an `Optional[str]`: `None` and `""` are falsy. -/
def pyTruthy : Option String → Bool
  | none => false
  | some s => s ≠ ""

/-- `WikiTemplate.pop` (lines 242-252): `pop(k)` with a truthy key
removes and returns the value of `k`, suppressing the `KeyError` of a
missing key (yielding Python's implicit `None`); with a falsy key
(`None` or `""`) it runs `popitem()`, which removes and returns the
last-inserted entry, again yielding `None` on an empty dict.  Returns
the popped value together with the mutated template. -/
def WikiTemplate.pop (t : WikiTemplate) (k : Option String) :
    Option WikiText × WikiTemplate :=
  if pyTruthy k then
    match k with
    | some key =>
      match t.params.lookup key with
      | some v => (some v, .mk t.title (t.params.eraseP (fun p => p.1 == key)))
      | none => (none, t)
    | none => (none, t)
  else
    match t.params.getLast? with
    | some p => (some p.2, .mk t.title t.params.dropLast)
    | none => (none, t)

/-- `WikiTemplate.get_param` (line 291): `self._params.get(k, default)`.
The claims only exercise the `None` default, so the default is an
`Option WikiText`. -/
def WikiTemplate.getParam (t : WikiTemplate) (k : String) (default : Option WikiText) :
    Option WikiText :=
  match t.params.lookup k with
  | some v => some v
  | none => default

/-- C5: the claim that `pop` returns `None` for every absent key is
false: the empty string is not a key of `\x7b\x7bT|a=x\x7d\x7d`, yet `t.pop("")`
returns the value `x`, because a falsy key selects the `popitem()`
branch. -/
theorem c5_absent_pop_counterexample :
    ((WikiTemplate.mk (some "T") [("a", WikiText.mk [.str "x"])]).params.lookup "" = none)
    ∧ (((WikiTemplate.mk (some "T") [("a", WikiText.mk [.str "x"])]).pop (some "")).1
        = some (WikiText.mk [.str "x"]))
    ∧ ¬ (∀ (t : WikiTemplate) (k : String),
          t.params.lookup k = none → (t.pop (some k)).1 = none) := by
  refine ⟨rfl, rfl, fun hall => ?_⟩
  have h := hall (WikiTemplate.mk (some "T") [("a", WikiText.mk [.str "x"])]) "" rfl
  rw [show ((WikiTemplate.mk (some "T") [("a", WikiText.mk [.str "x"])]).pop (some "")).1
      = some (WikiText.mk [.str "x"]) from rfl] at h
  exact Option.noConfusion h

/-- C5 (amended): for every non-empty absent key, `pop` returns `None`
without raising, and `get_param` returns its `None` default; a falsy
key (`None` or `""`) instead pops the last-inserted parameter,
returning `None` only when there are no parameters. -/
theorem c5_absent_lookups_amended (t : WikiTemplate) (k : String) (hk : k ≠ "")
    (h : t.params.lookup k = none) :
    (t.pop (some k)).1 = none
    ∧ t.getParam k none = none
    ∧ (t.pop (some "")).1 = t.params.getLast?.map (fun p => p.2)
    ∧ (t.pop none).1 = t.params.getLast?.map (fun p => p.2) := by
  refine ⟨?_, ?_, ?_, ?_⟩
  · rw [WikiTemplate.pop, if_pos (by simp [pyTruthy, hk]), h]
  · rw [WikiTemplate.getParam, h]
  · rw [WikiTemplate.pop, if_neg (by simp [pyTruthy])]
    cases t.params.getLast? <;> rfl
  · rw [WikiTemplate.pop, if_neg (by simp [pyTruthy])]
    cases t.params.getLast? <;> rfl

/-- C5 witness: the amended statements at a template with one parameter
and the absent key `b`. -/
theorem c5_absent_lookups_amended_witness :
    ((WikiTemplate.mk (some "T") [("a", WikiText.mk [.str "x"])]).pop (some "b")).1 = none
    ∧ (WikiTemplate.mk (some "T") [("a", WikiText.mk [.str "x"])]).getParam "b" none = none :=
  ⟨(c5_absent_lookups_amended (WikiTemplate.mk (some "T") [("a", WikiText.mk [.str "x"])])
      "b" (by decide) rfl).1,
   (c5_absent_lookups_amended (WikiTemplate.mk (some "T") [("a", WikiText.mk [.str "x"])])
      "b" (by decide) rfl).2.1⟩

/-- `WikiTemplate.__setitem__` (lines 186-201): a non-`str` key or a
value that is not a `str`, `WikiTemplate` or `WikiText` raises
`TypeError`; otherwise the value is wrapped into a `WikiText` (via
`WikiText.__init__`) unless it already is one, and stored. -/
inductive KeyArg : Type where
  | strKey : String → KeyArg
  | nonStr : KeyArg

def WikiTemplate.setItemChecked (t : WikiTemplate) (k : KeyArg) (v : PyVal) :
    Except PyErr WikiTemplate :=
  match k with
  | .nonStr => .error .typeError
  | .strKey key =>
    match v with
    | .other => .error .typeError
    | .pstr s => .ok (.mk t.title (setParamL t.params key (.mk (appendNode [] (.str s)))))
    | .ptmpl tm => .ok (.mk t.title (setParamL t.params key (.mk [.tmpl tm])))
    | .ptext w => .ok (.mk t.title (setParamL t.params key w))

/-! ### The remote parse boundary (`WParser._basic_parse`, `parse`,
`revision_metadata`)

The JSON payload of a response is modelled by `JVal`; the network call
either raises (`Transport.raises`) or yields the decoded JSON.  The
XML deserializer (`ElementTree.fromstring`) is the `fromString`
collaborator parameter. -/

inductive JVal : Type where
  | null : JVal
  | jstr : String → JVal
  | jarr : List JVal → JVal
  | jobj : List (String × JVal) → JVal

inductive Transport : Type where
  | raises : Transport
  | json : JVal → Transport

/-- Python falsiness of a decoded JSON value. -/
def jFalsy : JVal → Bool
  | .null => true
  | .jstr s => s = ""
  | .jarr l => l.isEmpty
  | .jobj m => m.isEmpty

/-- Whether one string occurs inside another (Python's `in` on `str`). -/
def containsSub (s sub : String) : Bool :=
  (s.splitOn sub).length ≥ 2

/-- `has_error(response)`: `"error" in response`, which is a key test on
a dict, a substring test on a string, and a membership test on a list.
`"error" in None` raises `TypeError` in Python, but a falsy response is
returned before `has_error` runs, so `null` is unreachable. -/
def hasError : JVal → Bool
  | .jobj m => m.any (fun p => p.1 = "error")
  | .jstr s => containsSub s "error"
  | .jarr l => l.any (fun e => match e with | .jstr t => t = "error" | _ => false)
  | .null => false

/-- `mine_for`'s key-following loop: `target = target.get(k, {})`; the
`AttributeError` from calling `.get` on a non-dict is caught by
`mine_for`'s `try`, which then returns `None`. -/
def mineForGo : JVal → List String → Option JVal
  | t, [] => some t
  | .jobj m, k :: rest => mineForGo ((m.lookup k).getD (.jobj [])) rest
  | _, _ :: _ => none

/-- Whether a JSON value equals Python's `\x7b\x7d` (only the empty dict does). -/
def isEmptyObj : JVal → Bool
  | .jobj [] => true
  | _ => false

/-- `mine_for(target, *keys)` (utils.py lines 37-53): follow the keys
with `\x7b\x7d` defaults and return `None` when the result `== \x7b\x7d` or a crash
was caught. -/
def mineFor (t : JVal) (keys : List String) : Option JVal :=
  match mineForGo t keys with
  | some r => if isEmptyObj r then none else some r
  | none => none

/-- `WParser._basic_parse` (lines 397-423).  A falsy response returns
`None`; an error payload falls through to logging and returns `None`;
otherwise the `"parse"` sub-object is mined.  When the request or
`.json()` raises, the `except` clause swallows the exception, after
which `has_error(response)` reads the never-assigned local `response`
and raises `UnboundLocalError` (a subclass of `NameError`), which
propagates to the caller. -/
def basicParse (t : Transport) : Except PyErr (Option JVal) :=
  match t with
  | .raises => .error .nameError
  | .json v =>
    if jFalsy v then .ok none
    else if hasError v then .ok none
    else .ok (mineFor v ["parse"])

/-- `WParser.parse` (lines 469-498): raises `ValueError` when neither
`title` nor `text` is truthy; returns `None` when `_basic_parse`
returns a falsy result; otherwise mines `"parsetree"` and feeds it to
`ElementTree.fromstring` (`fromString`), whose failures raise. -/
def wparserParse (t : Transport) (fromString : String → Option Element)
    (title text : Option String) : Except PyErr (Option WikiText) :=
  if pyTruthy title || pyTruthy text then
    match basicParse t with
    | .error e => .error e
    | .ok none => .ok none
    | .ok (some response) =>
      if jFalsy response then .ok none
      else
        match mineFor response ["parsetree"] with
        | some (.jstr xml) =>
          match fromString xml with
          | some root => .ok (some (parseWikiText true root))
          | none => .error .xmlParseError
        | some _ => .error .typeError
        | none => .error .typeError
  else .error .valueError

/-- C4: the claim that every failing remote parse call makes `parse`
return `None` without raising is contradicted by the code: when the
request (or `.json()`) raises, `_basic_parse`'s `except` swallows the
exception but leaves the local `response` unbound, so `has_error`
raises `UnboundLocalError` (a `NameError`), which propagates out of
`parse`.  Empty responses and error payloads do return `None`. -/
theorem c4_transport_failure :
    (wparserParse .raises (fun _ => none) (some "Main Page") none = .error .nameError)
    ∧ (wparserParse (.json .null) (fun _ => none) (some "Main Page") none = .ok none)
    ∧ (wparserParse (.json (.jobj [("error", .jobj [("code", .jstr "x")])]))
        (fun _ => none) (some "Main Page") none = .ok none) :=
  ⟨rfl, rfl, rfl⟩

/-- C8: usage errors fail loudly and immediately: `parse` with neither
`title` nor `text` raises `ValueError` before any request is made; a
non-string parameter key or a value that is not a
`str`/`WikiTemplate`/`WikiText` raises `TypeError` from `__setitem__`;
appending an invalid element to a `WikiText` raises `TypeError`.  In
each case the error is returned instead of a new state, so no state
changes and nothing is coerced. -/
theorem c8_usage_errors_fail_loudly :
    (∀ (t : Transport) (fs : String → Option Element),
      wparserParse t fs none none = .error .valueError)
    ∧ (∀ (tm : WikiTemplate) (v : PyVal), tm.setItemChecked .nonStr v = .error .typeError)
    ∧ (∀ (tm : WikiTemplate) (k : String),
        tm.setItemChecked (.strKey k) .other = .error .typeError)
    ∧ (∀ (w : WikiText), w.iaddChecked .other = .error .typeError) := by
  refine ⟨fun t fs => rfl, fun tm v => ?_, fun tm k => rfl, fun w => rfl⟩
  cases v <;> rfl

/-- The `prop` list built by `revision_metadata` (lines 441-451): one
entry per requested metadata kind, in a fixed order. -/
def buildProps (categories external_links images links templates : Bool) : List String :=
  (if categories then ["categories"] else [])
    ++ (if external_links then ["externallinks"] else [])
    ++ (if images then ["images"] else [])
    ++ (if links then ["links"] else [])
    ++ (if templates then ["templates"] else [])

/-- The strings of a JSON array (raw external links). -/
def jArrStrings : JVal → List String
  | .jarr l => l.map (fun e => match e with | .jstr s => s | _ => "")
  | _ => []

/-- The field `k` of each object in a JSON array (e.g. `e["category"]`). -/
def jArrObjField (v : JVal) (k : String) : List String :=
  match v with
  | .jarr l =>
    l.map (fun e => match e with
      | .jobj m => (match m.lookup k with | some (.jstr s) => s | _ => "")
      | _ => "")
  | _ => []

/-- Dict assignment on the result mapping `out`. -/
def setAssoc (out : List (String × List String)) (k : String) (v : List String) :
    List (String × List String) :=
  if out.any (fun p => p.1 = k) then out.map (fun p => if p.1 = k then (k, v) else p)
  else out ++ [(k, v)]

/-- The denormalization loop of `revision_metadata` (lines 456-465):
categories and images go through the namespace collaborator
(`batch_convert_ns`), external links are renamed and passed raw, links
and templates yield their titles, and any other key is ignored. -/
def rmFold (batchCat batchImg : List String → List String) :
    List (String × JVal) → List (String × List String) → List (String × List String)
  | [], out => out
  | (k, v) :: rest, out =>
    rmFold batchCat batchImg rest
      (if k = "categories" then setAssoc out k (batchCat (jArrObjField v "category"))
       else if k = "externallinks" then setAssoc out "external_links" (jArrStrings v)
       else if k = "images" then setAssoc out k (batchImg (jArrStrings v))
       else if k = "links" ∨ k = "templates" then setAssoc out k (jArrObjField v "title")
       else out)

/-- `WParser.revision_metadata` (lines 425-467).  `server` maps the
`prop` parameter of the request (the only part of the payload that
depends on the requested kinds) to the transport outcome; the
namespace-conversion collaborators are abstract. -/
def revisionMetadata (server : String → Transport)
    (batchCat batchImg : List String → List String)
    (categories external_links images links templates : Bool) :
    Except PyErr (Option (List (String × List String))) :=
  let props := buildProps categories external_links images links templates
  match basicParse (server (String.intercalate "|" props)) with
  | .error e => .error e
  | .ok none => .ok none
  | .ok (some result) =>
    if jFalsy result then .ok none
    else match result with
      | .jobj m => .ok (some (rmFold batchCat batchImg m []))
      | _ => .error .attributeError

theorem rmFold_no_facets (batchCat batchImg : List String → List String)
    (m : List (String × JVal))
    (h : ∀ p ∈ m, p.1 ∉ ["categories", "externallinks", "images", "links", "templates"]) :
    rmFold batchCat batchImg m [] = [] := by
  have hgen : ∀ (l : List (String × JVal)) (out : List (String × List String)),
      (∀ p ∈ l, p.1 ∉ ["categories", "externallinks", "images", "links", "templates"]) →
      rmFold batchCat batchImg l out = out := by
    intro l
    induction l with
    | nil => intro out _; rfl
    | cons p rest ih =>
      intro out hl
      obtain ⟨k, v⟩ := p
      have hk := hl (k, v) (by simp)
      simp only [List.mem_cons, List.mem_singleton, not_or] at hk
      rw [rmFold, if_neg (by simpa using hk.1), if_neg (by simpa using hk.2.1),
        if_neg (by simpa using hk.2.2.1),
        if_neg (by simp [hk.2.2.2.1, hk.2.2.2.2])]
      exact ih out (fun q hq => hl q (by simp [hq]))
  exact hgen m [] h

/-- C9: with no metadata kinds requested, `revision_metadata` sends a
no-op request (the `prop` parameter is the empty string, the join of an
empty list), and for any ordinary response to it — no error, a
non-empty `parse` payload carrying none of the five facet keys — it
returns the empty mapping rather than failing. -/
theorem c9_empty_metadata_request (server : String → Transport)
    (batchCat batchImg : List String → List String)
    (v : JVal) (m : List (String × JVal))
    (hs : server "" = .json v)
    (hfalsy : jFalsy v = false) (herr : hasError v = false)
    (hmine : mineFor v ["parse"] = some (.jobj m)) (hm : m ≠ [])
    (hkeys : ∀ p ∈ m, p.1 ∉ ["categories", "externallinks", "images", "links", "templates"]) :
    buildProps false false false false false = []
    ∧ String.intercalate "|" (buildProps false false false false false) = ""
    ∧ revisionMetadata server batchCat batchImg false false false false false
        = .ok (some []) := by
  refine ⟨rfl, rfl, ?_⟩
  rw [revisionMetadata]
  show (match basicParse (server "") with
    | Except.error e => Except.error e
    | Except.ok none => Except.ok none
    | Except.ok (some result) =>
      if jFalsy result then Except.ok none
      else match result with
        | JVal.jobj m => Except.ok (some (rmFold batchCat batchImg m []))
        | _ => Except.error PyErr.attributeError)
    = Except.ok (some ([] : List (String × List String)))
  rw [hs, basicParse, if_neg (by simp [hfalsy]), if_neg (by simp [herr]), hmine]
  show (if jFalsy (JVal.jobj m) then Except.ok none
    else Except.ok (some (rmFold batchCat batchImg m [])))
    = Except.ok (some ([] : List (String × List String)))
  rw [if_neg (by simp [jFalsy, hm])]
  rw [rmFold_no_facets batchCat batchImg m hkeys]

/-- C9 witness: a concrete no-op response (`title` and `pageid` only)
yields the empty mapping. -/
theorem c9_empty_metadata_request_witness :
    revisionMetadata
      (fun _ => .json (.jobj [("parse",
        .jobj [("title", .jstr "X"), ("pageid", .jstr "3")])]))
      id id false false false false false = .ok (some []) :=
  (c9_empty_metadata_request
    (fun _ => .json (.jobj [("parse", .jobj [("title", .jstr "X"), ("pageid", .jstr "3")])]))
    id id _ [("title", .jstr "X"), ("pageid", .jstr "3")]
    rfl rfl rfl rfl (by simp) (by decide)).2.2

/-! ### `WikiTemplate.normalize` (lines 344-365)

The title services (`OQuery.normalize_titles`, `resolve_redirects`,
`Wiki.in_ns`, `Wiki.nss`, `Wiki.convert_ns`) are network/namespace
collaborators outside this core, so they are abstract function
parameters here (`norm`, `resolve`, `inTemplateNS`, `nss`,
`convertNsTemplate`, `inMainNS`).  The dict comprehension
`m = \x7bt.title: t for t in tl\x7d` keeps, for each title, only the last
template carrying it, so only those templates are mutated. -/

/-- One title update from line 358:
`m[k].title = wiki.nss(v) if wiki.in_ns(v, NS.TEMPLATE) else v`
applied to the canonical form `v = norm t.title`. -/
def normalizeTitleStep (norm : Option String → String) (inTemplateNS : String → Bool)
    (nss : String → String) (t : WikiTemplate) : WikiTemplate :=
  let v := norm t.title
  .mk (some (if inTemplateNS v then nss v else v)) t.params

/-- The non-bypass phase of `normalize`: every template that is the
last in the list with its title is updated. -/
def normalizePhase1 (norm : Option String → String) (inTemplateNS : String → Bool)
    (nss : String → String) (tl : List WikiTemplate) : List WikiTemplate :=
  tl.mapIdx (fun i t =>
    if (tl.drop (i + 1)).any (fun u => u.title == t.title) then t
    else normalizeTitleStep norm inTemplateNS nss t)

/-- `WikiTemplate.normalize`: the first phase runs unconditionally;
with `bypass_redirects` the titles are additionally pushed through
redirect resolution keyed on the Template-namespace-qualified title
(lines 360-363), with the same last-wins dict semantics and the same
prefix stripping of the result. -/
def WikiTemplate.normalize (norm : Option String → String) (inTemplateNS : String → Bool)
    (nss : String → String) (resolve : String → String) (convertNsTemplate : String → String)
    (inMainNS : String → Bool) (bypass : Bool) (tl : List WikiTemplate) :
    List WikiTemplate :=
  let tl1 := normalizePhase1 norm inTemplateNS nss tl
  if bypass then
    let key : WikiTemplate → String := fun u =>
      let s := pyStrTitle u.title
      if inMainNS s then convertNsTemplate s else s
    tl1.mapIdx (fun i t =>
      if (tl1.drop (i + 1)).any (fun u => key u == key t) then t
      else
        let v := resolve (key t)
        .mk (some (if inTemplateNS v then nss v else v)) t.params)
  else tl1

/-- C10: the Template-namespace prefix strip of line 358 runs in the
non-bypass phase: with `bypass_redirects = False`, a template whose
canonical (normalized) title lies in the Template namespace ends up
with the prefix-stripped canonical title. -/
theorem c10_normalize_template_prefix_strip (norm : Option String → String)
    (inTemplateNS : String → Bool) (nss resolve convertNsTemplate : String → String)
    (inMainNS : String → Bool) (title : Option String) (params : List (String × WikiText))
    (h : inTemplateNS (norm title) = true) :
    WikiTemplate.normalize norm inTemplateNS nss resolve convertNsTemplate inMainNS false
        [WikiTemplate.mk title params]
      = [WikiTemplate.mk (some (nss (norm title))) params] := by
  rw [WikiTemplate.normalize]
  show normalizePhase1 norm inTemplateNS nss [WikiTemplate.mk title params] = _
  rw [normalizePhase1]
  simp [normalizeTitleStep, WikiTemplate.title, WikiTemplate.params, h]

/-- C10 witness: a title whose canonical form is `Template:Foo` is
stored as `Foo`. -/
theorem c10_normalize_template_prefix_strip_witness :
    WikiTemplate.normalize (fun _ => "Template:Foo") (fun s => s == "Template:Foo")
        (fun s => if s == "Template:Foo" then "Foo" else s) id id (fun _ => false) false
        [WikiTemplate.mk (some "template:foo") []]
      = [WikiTemplate.mk (some "Foo") []] :=
  (c10_normalize_template_prefix_strip (fun _ => "Template:Foo")
    (fun s => s == "Template:Foo") (fun s => if s == "Template:Foo" then "Foo" else s)
    id id (fun _ => false) (some "template:foo") [] rfl).trans (by rfl)

/-! ### Heap model of the mutable document objects (C6, C7)

`WikiText` and `WikiTemplate` are mutable Python objects linked by the
`parent` back-reference, so aliasing matters: the same `WikiTemplate`
object can sit in several `WikiText._l` lists while `parent` points to
only one of them.  Objects live at allocation indices in a heap;
`WikiText._l` holds strings and template references, a template holds
its title, its parameter dict (values are `WikiText` references, as
`__setitem__` stores `WikiText` values by reference) and its `parent`. -/

inductive HNode where
  | str (s : String)
  | tmplRef (i : Nat)
deriving DecidableEq

structure TextObj where
  l : List HNode
deriving DecidableEq

structure TmplObj where
  title : Option String
  params : List (String × Nat)
  parent : Option Nat
deriving DecidableEq

structure Heap where
  texts : List TextObj
  tmpls : List TmplObj
deriving DecidableEq

/-- `l[i]` as an option, written out structurally. -/
def getAt {α : Type} : List α → Nat → Option α
  | [], _ => none
  | x :: _, 0 => some x
  | _ :: xs, n + 1 => getAt xs n

/-- `l[i] = a`, leaving the list unchanged when `i` is out of range. -/
def setAt {α : Type} : List α → Nat → α → List α
  | [], _, _ => []
  | _ :: xs, 0, a => a :: xs
  | x :: xs, n + 1, a => x :: setAt xs n a

/-- Python dict assignment `d[k] = v` on an insertion-ordered
association list: an existing key keeps its position, a fresh key goes
to the end. -/
def setAssocN : List (String × Nat) → String → Nat → List (String × Nat)
  | [], k, v => [(k, v)]
  | (k1, v1) :: rest, k, v =>
      if k1 = k then (k, v) :: rest else (k1, v1) :: setAssocN rest k v

/-- The string-append case of `__iadd__` (lines 57-63): merge into a
trailing string node, else append a new one.  The empty-string guard
is handled by the caller. -/
def appendStrH : List HNode → String → List HNode
  | [], s => [HNode.str s]
  | [HNode.str t], s => [HNode.str (t ++ s)]
  | [HNode.tmplRef i], s => [HNode.tmplRef i, HNode.str s]
  | x :: y :: xs, s => x :: appendStrH (y :: xs) s

mutual

/-- Structural equality of heap objects as Python's `==` computes it
(`WikiTemplate.__eq__` compares titles and parameter dicts,
`WikiText.__eq__` compares node lists elementwise), with CPython's
identity fast path and a fuel bound standing in for the recursion. -/
def tmplEqF (h : Heap) : Nat → Nat → Nat → Bool
  | 0, i, j => i == j
  | fuel + 1, i, j =>
    i == j ||
      match getAt h.tmpls i, getAt h.tmpls j with
      | some a, some b =>
          a.title == b.title && a.params.length == b.params.length &&
          a.params.all (fun kv =>
            match b.params.find? (fun kv2 => kv2.1 == kv.1) with
            | some kv2 => textEqF h fuel kv.2 kv2.2
            | none => false)
      | _, _ => false

/-- Structural equality of two `WikiText` heap objects, see `tmplEqF`. -/
def textEqF (h : Heap) : Nat → Nat → Nat → Bool
  | 0, i, j => i == j
  | fuel + 1, i, j =>
    i == j ||
      match getAt h.texts i, getAt h.texts j with
      | some a, some b =>
          a.l.length == b.l.length &&
          (a.l.zip b.l).all (fun ee =>
            match ee with
            | (HNode.str s, HNode.str t) => s == t
            | (HNode.tmplRef m, HNode.tmplRef n) => tmplEqF h fuel m n
            | _ => false)
      | _, _ => false

end

/-- The comparison `list.remove` makes between a node of `_l` and the
template being dropped: a string never equals a `WikiTemplate`, a
template reference matches by identity or by `__eq__`. -/
def hnodeMatch (h : Heap) (e : HNode) (t : Nat) : Bool :=
  match e with
  | .str _ => false
  | .tmplRef i => tmplEqF h (h.tmpls.length + h.texts.length + 1) i t

/-- `list.remove`: drop the first matching element, `none` models the
`ValueError` when nothing matches. -/
def removeFirst (p : HNode → Bool) : List HNode → Option (List HNode)
  | [] => none
  | x :: xs => if p x then some xs else (removeFirst p xs).map (fun ys => x :: ys)

/-- The document-model operations of the claim: construction
(`WikiText()`, `WikiTemplate(title, parent=...)`), append
(`__iadd__` with a `str` or a `WikiTemplate`), parameter assignment
(`__setitem__` with a `WikiText` value), and `drop`. -/
inductive Op where
  | newText
  | newTmpl (title : Option String) (parent : Option Nat)
  | appendStr (p : Nat) (s : String)
  | appendTmpl (p t : Nat)
  | setParam (t : Nat) (k : String) (v : Nat)
  | drop (t : Nat)
deriving DecidableEq

/-- One operation on the heap, `none` on a Python exception.
`newTmpl` (lines 134-148) records `parent` but does not enter the new
template into the parent's `_l`; `appendTmpl` (lines 64-66) appends to
`_l` and overwrites `other.parent` without removing `other` from a
previous parent; `drop` (lines 254-258) is guarded by the truthiness
of `self.parent` (an empty parent `WikiText` is falsy), removes the
first `==`-matching element, then clears `parent`. -/
def runOp (h : Heap) : Op → Option Heap
  | .newText => some ⟨h.texts ++ [⟨[]⟩], h.tmpls⟩
  | .newTmpl title parent =>
    match parent with
    | none => some ⟨h.texts, h.tmpls ++ [⟨title, [], none⟩]⟩
    | some p =>
      match getAt h.texts p with
      | some _ => some ⟨h.texts, h.tmpls ++ [⟨title, [], some p⟩]⟩
      | none => none
  | .appendStr p s =>
    match getAt h.texts p with
    | some pt => some (if s = "" then h else ⟨setAt h.texts p ⟨appendStrH pt.l s⟩, h.tmpls⟩)
    | none => none
  | .appendTmpl p t =>
    match getAt h.texts p, getAt h.tmpls t with
    | some pt, some obj =>
        some ⟨setAt h.texts p ⟨pt.l ++ [HNode.tmplRef t]⟩,
              setAt h.tmpls t ⟨obj.title, obj.params, some p⟩⟩
    | _, _ => none
  | .setParam t k v =>
    match getAt h.tmpls t, getAt h.texts v with
    | some obj, some _ =>
        some ⟨h.texts, setAt h.tmpls t ⟨obj.title, setAssocN obj.params k v, obj.parent⟩⟩
    | _, _ => none
  | .drop t =>
    match getAt h.tmpls t with
    | none => none
    | some obj =>
      match obj.parent with
      | none => some h
      | some p =>
        match getAt h.texts p with
        | none => none
        | some pt =>
          if pt.l = [] then some h
          else
            match removeFirst (fun e => hnodeMatch h e t) pt.l with
            | none => none
            | some l1 =>
                some ⟨setAt h.texts p ⟨l1⟩, setAt h.tmpls t ⟨obj.title, obj.params, none⟩⟩

/-- Run a sequence of operations from a starting heap. -/
def runOps : Heap → List Op → Option Heap
  | h, [] => some h
  | h, op :: ops =>
    match runOp h op with
    | some h1 => runOps h1 ops
    | none => none

/-- The empty heap: no objects allocated yet. -/
def Heap.empty : Heap := ⟨[], []⟩

/-- Does the node list of a `WikiText` contain a reference to template `t`? -/
def hasRef (t : Nat) (l : List HNode) : Bool :=
  l.any (fun e => decide (e = HNode.tmplRef t))

/-- How many references to template `t` a node list holds. -/
def countRef (t : Nat) : List HNode → Nat
  | [] => 0
  | x :: xs => (if x = HNode.tmplRef t then 1 else 0) + countRef t xs

/-- Remove the first reference to template `t` from a node list. -/
def eraseRef (t : Nat) : List HNode → List HNode
  | [] => []
  | x :: xs => if x = HNode.tmplRef t then xs else x :: eraseRef t xs

/-- Does the `WikiText` at index `p` contain a reference to template `t`? -/
def containsPred (ts : List TextObj) (t : Nat) (p : Nat) : Bool :=
  match getAt ts p with
  | some pt => hasRef t pt.l
  | none => false

/-- The indices of all `WikiText` objects whose node sequence holds a
reference to template `t`. -/
def textsContaining (ts : List TextObj) (t : Nat) : List Nat :=
  (List.range ts.length).filter (containsPred ts t)

/-- What the claimed invariant demands of a template whose `parent`
field is the given value: parentless templates sit in no `WikiText`,
parented ones sit exactly in their parent. -/
def parentSpecP (ts : List TextObj) (t : Nat) : Option Nat → Bool
  | none => decide (textsContaining ts t = [])
  | some p => decide (textsContaining ts t = [p])

/-- `parentSpecP` lifted to the result of a template lookup. -/
def parentSpec (ts : List TextObj) (t : Nat) : Option TmplObj → Bool
  | none => true
  | some obj => parentSpecP ts t obj.parent

/-- The claimed parent invariant at template `t`: a template inside
some `WikiText` has `parent` set to exactly that object, a template
inside none has `parent = None`. -/
def tmplInvAt (h : Heap) (t : Nat) : Bool :=
  parentSpec h.texts t (getAt h.tmpls t)

/-- The claimed parent invariant over the whole heap. -/
def claimInv (h : Heap) : Bool :=
  (List.range h.tmpls.length).all (tmplInvAt h)

/-- Reference bounds of a single node. -/
def nodeWf (n : Nat) : HNode → Bool
  | .str _ => true
  | .tmplRef i => decide (i < n)

/-- All node references of a `WikiText` point at allocated templates. -/
def textWf (n : Nat) (pt : TextObj) : Bool :=
  pt.l.all (nodeWf n)

/-- Parent and parameter references of a template point at allocated texts. -/
def tmplWf (ntexts : Nat) (obj : TmplObj) : Bool :=
  (match obj.parent with
   | none => true
   | some p => decide (p < ntexts)) &&
  obj.params.all (fun kv => decide (kv.2 < ntexts))

/-- Every reference in the heap points at an allocated object. -/
def wfHeap (h : Heap) : Bool :=
  h.texts.all (textWf h.tmpls.length) && h.tmpls.all (tmplWf h.texts.length)

/-- The guards under which the operations respect the parent
invariant: a template is constructed parentless, appended to a
`WikiText` only while parentless, and dropped only when its sole
occurrence in the parent is the first `==`-match of `list.remove`. -/
def goodOp (h : Heap) : Op → Bool
  | .newText => true
  | .newTmpl _ parent => parent.isNone
  | .appendStr _ _ => true
  | .appendTmpl _ t =>
      match getAt h.tmpls t with
      | some obj => obj.parent.isNone
      | none => false
  | .setParam _ _ _ => true
  | .drop t =>
      match getAt h.tmpls t with
      | none => false
      | some obj =>
        match obj.parent with
        | none => true
        | some p =>
          match getAt h.texts p with
          | none => false
          | some pt =>
            decide (countRef t pt.l = 1) &&
            pt.l.all (fun e => decide (hnodeMatch h e t = decide (e = HNode.tmplRef t)))

lemma getAt_append_lt {α : Type} (l1 l2 : List α) (i : Nat) (h : i < l1.length) :
    getAt (l1 ++ l2) i = getAt l1 i := by
  induction l1 generalizing i with
  | nil => simp at h
  | cons x xs ih =>
    cases i with
    | zero => rfl
    | succ n => exact ih n (Nat.lt_of_succ_lt_succ h)

lemma getAt_append_len {α : Type} (l : List α) (a : α) :
    getAt (l ++ [a]) l.length = some a := by
  induction l with
  | nil => rfl
  | cons x xs ih => exact ih

lemma getAt_lt {α : Type} (l : List α) (i : Nat) (h : i < l.length) :
    ∃ a, getAt l i = some a := by
  induction l generalizing i with
  | nil => simp at h
  | cons x xs ih =>
    cases i with
    | zero => exact ⟨x, rfl⟩
    | succ n => exact ih n (Nat.lt_of_succ_lt_succ h)

lemma getAt_isSome_lt {α : Type} (l : List α) (i : Nat) (a : α) (h : getAt l i = some a) :
    i < l.length := by
  induction l generalizing i with
  | nil => exact absurd h (by simp [getAt])
  | cons x xs ih =>
    cases i with
    | zero => exact Nat.succ_pos _
    | succ n => exact Nat.succ_lt_succ (ih n h)

lemma getAt_mem {α : Type} (l : List α) (i : Nat) (a : α) (h : getAt l i = some a) :
    a ∈ l := by
  induction l generalizing i with
  | nil => exact absurd h (by simp [getAt])
  | cons x xs ih =>
    cases i with
    | zero => exact (Option.some.injEq _ _ ▸ h : x = a) ▸ List.mem_cons_self x xs
    | succ n => exact List.mem_cons_of_mem x (ih n h)

lemma length_setAt {α : Type} (l : List α) (i : Nat) (a : α) :
    (setAt l i a).length = l.length := by
  induction l generalizing i with
  | nil => rfl
  | cons x xs ih =>
    cases i with
    | zero => rfl
    | succ n => simp [setAt, ih]

lemma getAt_setAt_self {α : Type} (l : List α) (i : Nat) (a : α) (h : i < l.length) :
    getAt (setAt l i a) i = some a := by
  induction l generalizing i with
  | nil => simp at h
  | cons x xs ih =>
    cases i with
    | zero => rfl
    | succ n => exact ih n (Nat.lt_of_succ_lt_succ h)

lemma getAt_setAt_ne {α : Type} (l : List α) (i j : Nat) (a : α) (h : j ≠ i) :
    getAt (setAt l i a) j = getAt l j := by
  induction l generalizing i j with
  | nil => rfl
  | cons x xs ih =>
    cases i with
    | zero =>
      cases j with
      | zero => exact absurd rfl h
      | succ m => rfl
    | succ n =>
      cases j with
      | zero => rfl
      | succ m => exact ih n m (fun hc => h (congrArg Nat.succ hc))

lemma mem_setAt {α : Type} (l : List α) (i : Nat) (a b : α) (h : b ∈ setAt l i a) :
    b ∈ l ∨ b = a := by
  induction l generalizing i with
  | nil => exact absurd h (by simp [setAt])
  | cons x xs ih =>
    cases i with
    | zero =>
      rcases List.mem_cons.mp h with h1 | h1
      · exact Or.inr h1
      · exact Or.inl (List.mem_cons_of_mem x h1)
    | succ n =>
      rcases List.mem_cons.mp h with h1 | h1
      · exact Or.inl (h1 ▸ List.mem_cons_self x xs)
      · rcases ih n h1 with h2 | h2
        · exact Or.inl (List.mem_cons_of_mem x h2)
        · exact Or.inr h2

lemma hasRef_appendStrH (t : Nat) (l : List HNode) (s : String) :
    hasRef t (appendStrH l s) = hasRef t l := by
  induction l with
  | nil => simp [appendStrH, hasRef]
  | cons x xs ih =>
    cases xs with
    | nil =>
      cases x with
      | str s1 => simp [appendStrH, hasRef]
      | tmplRef i => simp [appendStrH, hasRef]
    | cons y ys =>
      simp only [appendStrH, hasRef, List.any_cons] at ih ⊢
      rw [ih]

lemma all_appendStrH (q : HNode → Bool) (hq : ∀ s1 : String, q (HNode.str s1) = true)
    (l : List HNode) (s : String) : (appendStrH l s).all q = l.all q := by
  induction l with
  | nil => simp [appendStrH, hq]
  | cons x xs ih =>
    cases xs with
    | nil =>
      cases x with
      | str s1 => simp [appendStrH, hq]
      | tmplRef i => simp [appendStrH, hq]
    | cons y ys =>
      simp only [appendStrH, List.all_cons] at ih ⊢
      rw [ih]

lemma hasRef_append_ref (t u : Nat) (l : List HNode) :
    hasRef t (l ++ [HNode.tmplRef u]) = (hasRef t l || decide (u = t)) := by
  simp only [hasRef, List.any_append, List.any_cons, List.any_nil, Bool.or_false]
  by_cases h : u = t
  · simp [h]
  · simp [h, fun hc : HNode.tmplRef u = HNode.tmplRef t => h (HNode.tmplRef.inj hc)]

lemma countRef_zero_hasRef (t : Nat) (l : List HNode) (h : countRef t l = 0) :
    hasRef t l = false := by
  induction l with
  | nil => rfl
  | cons x xs ih =>
    simp only [countRef] at h
    by_cases hx : x = HNode.tmplRef t
    · rw [if_pos hx] at h
      exact absurd h (by omega)
    · rw [if_neg hx, Nat.zero_add] at h
      show (decide (x = HNode.tmplRef t) || hasRef t xs) = false
      rw [decide_eq_false hx, ih h]
      rfl

lemma countRef_one_hasRef (t : Nat) (l : List HNode) (h : countRef t l = 1) :
    hasRef t l = true := by
  induction l with
  | nil => simp [countRef] at h
  | cons x xs ih =>
    simp only [countRef] at h
    by_cases hx : x = HNode.tmplRef t
    · show (decide (x = HNode.tmplRef t) || hasRef t xs) = true
      rw [decide_eq_true hx, Bool.true_or]
    · rw [if_neg hx, Nat.zero_add] at h
      show (decide (x = HNode.tmplRef t) || hasRef t xs) = true
      rw [ih h, Bool.or_true]

lemma hasRef_eraseRef_self (t : Nat) (l : List HNode) (h : countRef t l = 1) :
    hasRef t (eraseRef t l) = false := by
  induction l with
  | nil => rfl
  | cons x xs ih =>
    simp only [countRef] at h
    show hasRef t (if x = HNode.tmplRef t then xs else x :: eraseRef t xs) = false
    by_cases hx : x = HNode.tmplRef t
    · rw [if_pos hx] at h ⊢
      exact countRef_zero_hasRef t xs (by omega)
    · rw [if_neg hx, Nat.zero_add] at h
      rw [if_neg hx]
      show (decide (x = HNode.tmplRef t) || hasRef t (eraseRef t xs)) = false
      rw [decide_eq_false hx, ih h]
      rfl

lemma hasRef_eraseRef_ne (t u : Nat) (l : List HNode) (hne : u ≠ t) :
    hasRef u (eraseRef t l) = hasRef u l := by
  induction l with
  | nil => rfl
  | cons x xs ih =>
    show hasRef u (if x = HNode.tmplRef t then xs else x :: eraseRef t xs)
        = (decide (x = HNode.tmplRef u) || hasRef u xs)
    by_cases hx : x = HNode.tmplRef t
    · have hxu : decide (x = HNode.tmplRef u) = false := by
        apply decide_eq_false
        intro hc
        exact hne (HNode.tmplRef.inj (hc.symm.trans hx))
      rw [if_pos hx, hxu, Bool.false_or]
    · rw [if_neg hx]
      show (decide (x = HNode.tmplRef u) || hasRef u (eraseRef t xs))
          = (decide (x = HNode.tmplRef u) || hasRef u xs)
      rw [ih]

lemma all_eraseRef (q : HNode → Bool) (t : Nat) (l : List HNode) (h : l.all q = true) :
    (eraseRef t l).all q = true := by
  induction l with
  | nil => rfl
  | cons x xs ih =>
    simp only [List.all_cons, Bool.and_eq_true] at h
    by_cases hx : x = HNode.tmplRef t
    · simpa [eraseRef, hx] using h.2
    · simp [eraseRef, hx, List.all_cons, h.1, ih h.2]

lemma removeFirst_eq_eraseRef (h : Heap) (t : Nat) (l : List HNode)
    (honly : ∀ e ∈ l, hnodeMatch h e t = decide (e = HNode.tmplRef t))
    (hmem : hasRef t l = true) :
    removeFirst (fun e => hnodeMatch h e t) l = some (eraseRef t l) := by
  induction l with
  | nil => simp [hasRef] at hmem
  | cons x xs ih =>
    have hx := honly x (List.mem_cons_self x xs)
    by_cases hxt : x = HNode.tmplRef t
    · have hxm : hnodeMatch h x t = true := by rw [hx]; exact decide_eq_true hxt
      show (if hnodeMatch h x t = true then some xs
            else (removeFirst (fun e => hnodeMatch h e t) xs).map (fun ys => x :: ys))
          = some (eraseRef t (x :: xs))
      rw [if_pos hxm]
      show some xs = some (if x = HNode.tmplRef t then xs else x :: eraseRef t xs)
      rw [if_pos hxt]
    · have hxm : hnodeMatch h x t = false := by simp [hx, hxt]
      have hmem2 : hasRef t xs = true := by
        simpa [hasRef, List.any_cons, hxt] using hmem
      simp [removeFirst, hxm, eraseRef, hxt,
        ih (fun e he => honly e (List.mem_cons_of_mem x he)) hmem2]

lemma filter_congr_mem {α : Type} (p q : α → Bool) (l : List α)
    (h : ∀ a ∈ l, p a = q a) : l.filter p = l.filter q := by
  induction l with
  | nil => rfl
  | cons x xs ih =>
    have hx := h x (List.mem_cons_self x xs)
    have ihx := ih (fun a ha => h a (List.mem_cons_of_mem x ha))
    simp only [List.filter, hx, ihx]

lemma filter_range_decide_eq_nil (n p : Nat) (h : n ≤ p) :
    (List.range n).filter (fun q => decide (q = p)) = [] := by
  induction n with
  | zero => rfl
  | succ m ih =>
    rw [List.range_succ, List.filter_append, ih (Nat.le_of_succ_le h)]
    have : decide (m = p) = false := decide_eq_false (by omega)
    simp [List.filter, this]

lemma filter_range_decide_eq_single (n p : Nat) (h : p < n) :
    (List.range n).filter (fun q => decide (q = p)) = [p] := by
  induction n with
  | zero => exact absurd h (Nat.not_lt_zero p)
  | succ m ih =>
    rw [List.range_succ, List.filter_append]
    by_cases hp : p < m
    · rw [ih hp]
      have : decide (m = p) = false := decide_eq_false (by omega)
      simp [List.filter, this]
    · have hpm : p = m := by omega
      rw [filter_range_decide_eq_nil m p (by omega)]
      simp [List.filter, hpm]

lemma filter_range_nil_forall (p : Nat → Bool) (n : Nat)
    (h : (List.range n).filter p = []) : ∀ q, q < n → p q = false := by
  intro q hq
  by_contra hc
  have hqt : p q = true := by
    cases hpq : p q with
    | false => exact absurd hpq hc
    | true => rfl
  have : q ∈ (List.range n).filter p :=
    List.mem_filter.mpr ⟨List.mem_range.mpr hq, hqt⟩
  rw [h] at this
  exact absurd this (List.not_mem_nil q)

lemma filter_range_single_forall (pr : Nat → Bool) (n p : Nat)
    (h : (List.range n).filter pr = [p]) :
    ∀ q, q < n → q ≠ p → pr q = false := by
  intro q hq hqp
  by_contra hc
  have hqt : pr q = true := by
    cases hpq : pr q with
    | false => exact absurd hpq hc
    | true => rfl
  have : q ∈ (List.range n).filter pr :=
    List.mem_filter.mpr ⟨List.mem_range.mpr hq, hqt⟩
  rw [h] at this
  exact hqp (List.mem_singleton.mp this)

lemma textsContaining_congr (ts ts' : List TextObj) (t : Nat)
    (hlen : ts'.length = ts.length)
    (hsame : ∀ p, p < ts.length → containsPred ts' t p = containsPred ts t p) :
    textsContaining ts' t = textsContaining ts t := by
  rw [textsContaining, textsContaining, hlen]
  exact filter_congr_mem _ _ _ (fun a ha => hsame a (List.mem_range.mp ha))

lemma textsContaining_append_empty (ts : List TextObj) (t : Nat) :
    textsContaining (ts ++ [⟨[]⟩]) t = textsContaining ts t := by
  rw [textsContaining, textsContaining, List.length_append, List.length_singleton,
    List.range_succ, List.filter_append]
  have h1 : containsPred (ts ++ [⟨[]⟩]) t ts.length = false := by
    rw [containsPred, getAt_append_len]
    rfl
  have h2 : (List.range ts.length).filter (containsPred (ts ++ [⟨[]⟩]) t)
      = (List.range ts.length).filter (containsPred ts t) := by
    apply filter_congr_mem
    intro a ha
    rw [containsPred, containsPred, getAt_append_lt ts _ a (List.mem_range.mp ha)]
  simp [List.filter, h1, h2]

lemma textsContaining_setAt_same (ts : List TextObj) (p : Nat) (pt nl : TextObj) (t : Nat)
    (hget : getAt ts p = some pt) (hsame : hasRef t nl.l = hasRef t pt.l) :
    textsContaining (setAt ts p nl) t = textsContaining ts t := by
  apply textsContaining_congr _ _ _ (length_setAt ts p nl)
  intro q hq
  by_cases hqp : q = p
  · subst hqp
    rw [containsPred, containsPred, getAt_setAt_self ts q nl (getAt_isSome_lt ts q pt hget),
      hget]
    exact hsame
  · rw [containsPred, containsPred, getAt_setAt_ne ts p q nl hqp]

lemma textsContaining_empty_iff (ts : List TextObj) (t : Nat)
    (h : ∀ q, q < ts.length → containsPred ts t q = false) :
    textsContaining ts t = [] := by
  rw [textsContaining]
  rw [filter_congr_mem _ (fun _ => false) _ (fun a ha => h a (List.mem_range.mp ha))]
  exact List.filter_false _

lemma textsContaining_single_of (ts : List TextObj) (t p : Nat) (hp : p < ts.length)
    (h : ∀ q, q < ts.length → containsPred ts t q = decide (q = p)) :
    textsContaining ts t = [p] := by
  rw [textsContaining]
  rw [filter_congr_mem _ (fun q => decide (q = p)) _ (fun a ha => h a (List.mem_range.mp ha))]
  exact filter_range_decide_eq_single ts.length p hp

lemma textWf_mono (n m : Nat) (hnm : n ≤ m) (pt : TextObj) (h : textWf n pt = true) :
    textWf m pt = true := by
  rw [textWf] at h ⊢
  rw [List.all_eq_true] at h ⊢
  intro e he
  have := h e he
  cases e with
  | str s => rfl
  | tmplRef i =>
    rw [nodeWf] at this ⊢
    exact decide_eq_true (Nat.lt_of_lt_of_le (of_decide_eq_true this) hnm)

lemma tmplWf_mono (n m : Nat) (hnm : n ≤ m) (obj : TmplObj) (h : tmplWf n obj = true) :
    tmplWf m obj = true := by
  rw [tmplWf] at h ⊢
  rw [Bool.and_eq_true] at h ⊢
  constructor
  · cases hpar : obj.parent with
    | none => rfl
    | some p =>
      rw [hpar] at h
      exact decide_eq_true (Nat.lt_of_lt_of_le (of_decide_eq_true h.1) hnm)
  · rw [List.all_eq_true] at h ⊢
    intro kv hkv
    exact decide_eq_true (Nat.lt_of_lt_of_le (of_decide_eq_true (h.2 kv hkv)) hnm)

lemma hasRef_lt_of_textWf (n t : Nat) (pt : TextObj) (hwf : textWf n pt = true)
    (h : hasRef t pt.l = true) : t < n := by
  rw [hasRef, List.any_eq_true] at h
  obtain ⟨e, he, het⟩ := h
  have := List.all_eq_true.mp hwf e he
  rw [of_decide_eq_true het] at this
  exact of_decide_eq_true this

lemma all_setAt {α : Type} (q : α → Bool) (l : List α) (i : Nat) (a : α)
    (hl : l.all q = true) (ha : q a = true) : (setAt l i a).all q = true := by
  rw [List.all_eq_true] at hl ⊢
  intro b hb
  rcases mem_setAt l i a b hb with h1 | h1
  · exact hl b h1
  · exact h1 ▸ ha

lemma setAssocN_all (q : String × Nat → Bool) (ps : List (String × Nat)) (k : String) (v : Nat)
    (hps : ps.all q = true) (hkv : q (k, v) = true) : (setAssocN ps k v).all q = true := by
  induction ps with
  | nil => simp [setAssocN, hkv]
  | cons x xs ih =>
    rw [List.all_cons, Bool.and_eq_true] at hps
    show (if x.1 = k then (k, v) :: xs else x :: setAssocN xs k v).all q = true
    by_cases hx : x.1 = k
    · rw [if_pos hx]
      rw [List.all_cons, Bool.and_eq_true]
      exact ⟨hkv, hps.2⟩
    · rw [if_neg hx]
      rw [List.all_cons, Bool.and_eq_true]
      exact ⟨hps.1, ih hps.2⟩

lemma parentSpecP_congr (ts ts' : List TextObj) (t : Nat) (pa : Option Nat)
    (h : textsContaining ts' t = textsContaining ts t) :
    parentSpecP ts' t pa = parentSpecP ts t pa := by
  cases pa with
  | none => rw [parentSpecP, parentSpecP, h]
  | some p => rw [parentSpecP, parentSpecP, h]

lemma hasRef_append_ref_ne (t u : Nat) (l : List HNode) (hne : t ≠ u) :
    hasRef u (l ++ [HNode.tmplRef t]) = hasRef u l := by
  rw [hasRef_append_ref, decide_eq_false hne, Bool.or_false]

/-- C6: the parent back-reference invariant does NOT hold after every
sequence of document-model operations.  `WikiTemplate.__init__`
(lines 134-148) stores the `parent` argument without entering the new
template into the parent's node list, so `WikiText();
WikiTemplate("T", parent=wt)` yields a template whose `parent` is set
although it sits inside no `WikiText` — refuting the claimed
invariant.  (Appending an already-parented template breaks it too,
since `__iadd__` never detaches from the old parent.) -/
theorem c6_parent_invariant_counterexample :
    (runOps Heap.empty [Op.newText, Op.newTmpl (some "T") (some 0)]).map claimInv
        = some false
    ∧ ¬(∀ ops h', runOps Heap.empty ops = some h' → claimInv h' = true) := by
  refine ⟨by decide, fun hAll => ?_⟩
  have h1 := hAll [Op.newText, Op.newTmpl (some "T") (some 0)]
    ⟨[⟨[]⟩], [⟨some "T", [], some 0⟩]⟩ (by decide)
  exact absurd h1 (by decide)

/-- C6 (amended): the parent invariant — together with reference
well-formedness — is preserved by every document-model operation that
(i) constructs templates parentless, (ii) appends a template to a
`WikiText` only while it is parentless, and (iii) drops a template
only when the sole `==`-match of `list.remove` in the parent's node
list is the template's own single occurrence.  Under these guards
construction, append and drop keep every template's `parent` pointing
at exactly the `WikiText` containing it. -/
theorem c6_parent_invariant_amended (h : Heap) (op : Op) (h' : Heap)
    (hwf : wfHeap h = true) (hinv : claimInv h = true) (hg : goodOp h op = true)
    (hrun : runOp h op = some h') : wfHeap h' = true ∧ claimInv h' = true := by
  rw [wfHeap, Bool.and_eq_true] at hwf
  obtain ⟨hwfT, hwfM⟩ := hwf
  have hinv' := List.all_eq_true.mp hinv
  cases op with
  | newText =>
    simp only [runOp, Option.some.injEq] at hrun
    subst hrun
    constructor
    · rw [wfHeap, Bool.and_eq_true]
      constructor
      · show ((h.texts ++ [TextObj.mk []]).all (textWf h.tmpls.length)) = true
        rw [List.all_append, Bool.and_eq_true]
        exact ⟨hwfT, by rfl⟩
      · show (h.tmpls.all (tmplWf (h.texts ++ [TextObj.mk []]).length)) = true
        rw [List.all_eq_true] at hwfM ⊢
        intro obj hobj
        exact tmplWf_mono h.texts.length _ (by simp) obj (hwfM obj hobj)
    · rw [claimInv, List.all_eq_true]
      intro u hu
      have hinvu := hinv' u hu
      rw [tmplInvAt] at hinvu ⊢
      show parentSpec (h.texts ++ [TextObj.mk []]) u (getAt h.tmpls u) = true
      cases hget : getAt h.tmpls u with
      | none => rw [parentSpec]
      | some obj =>
        rw [hget] at hinvu
        rw [parentSpec] at hinvu ⊢
        rw [parentSpecP_congr _ _ _ _ (textsContaining_append_empty h.texts u)]
        exact hinvu
  | newTmpl title parent =>
    have hp : parent = none := by
      cases parent with
      | none => rfl
      | some p => rw [goodOp] at hg; exact absurd hg (by simp [Option.isNone])
    subst hp
    simp only [runOp, Option.some.injEq] at hrun
    subst hrun
    constructor
    · rw [wfHeap, Bool.and_eq_true]
      constructor
      · show (h.texts.all (textWf (h.tmpls ++ [TmplObj.mk title [] none]).length)) = true
        rw [List.all_eq_true] at hwfT ⊢
        intro pt hpt
        exact textWf_mono h.tmpls.length _ (by simp) pt (hwfT pt hpt)
      · show ((h.tmpls ++ [TmplObj.mk title [] none]).all (tmplWf h.texts.length)) = true
        rw [List.all_append, Bool.and_eq_true]
        exact ⟨hwfM, by rfl⟩
    · rw [claimInv, List.all_eq_true]
      intro u hu
      rw [List.mem_range] at hu
      rw [tmplInvAt]
      show parentSpec h.texts u (getAt (h.tmpls ++ [TmplObj.mk title [] none]) u) = true
      by_cases hul : u < h.tmpls.length
      · rw [getAt_append_lt _ _ _ hul]
        have hinvu := hinv' u (List.mem_range.mpr hul)
        rw [tmplInvAt] at hinvu
        exact hinvu
      · have hu1 : u < h.tmpls.length + 1 := by
          simpa using hu
        have hu2 : u = h.tmpls.length := by omega
        subst hu2
        rw [getAt_append_len]
        rw [parentSpec]
        show parentSpecP h.texts h.tmpls.length none = true
        rw [parentSpecP]
        apply decide_eq_true
        apply textsContaining_empty_iff
        intro q hq
        rw [containsPred]
        obtain ⟨pt, hpt⟩ := getAt_lt h.texts q hq
        rw [hpt]
        show hasRef h.tmpls.length pt.l = false
        cases hhr : hasRef h.tmpls.length pt.l with
        | false => rfl
        | true =>
          have hwfpt := List.all_eq_true.mp hwfT pt (getAt_mem h.texts q pt hpt)
          have := hasRef_lt_of_textWf h.tmpls.length h.tmpls.length pt hwfpt hhr
          omega
  | appendStr p s =>
    simp only [runOp] at hrun
    cases hpt : getAt h.texts p with
    | none => rw [hpt] at hrun; exact absurd hrun (by simp)
    | some pt =>
      rw [hpt] at hrun
      simp only [Option.some.injEq] at hrun
      by_cases hs : s = ""
      · rw [if_pos hs] at hrun
        subst hrun
        exact ⟨by rw [wfHeap, Bool.and_eq_true]; exact ⟨hwfT, hwfM⟩, hinv⟩
      · rw [if_neg hs] at hrun
        subst hrun
        have hplen : p < h.texts.length := getAt_isSome_lt h.texts p pt hpt
        constructor
        · rw [wfHeap, Bool.and_eq_true]
          constructor
          · show ((setAt h.texts p ⟨appendStrH pt.l s⟩).all (textWf h.tmpls.length)) = true
            apply all_setAt _ _ _ _ hwfT
            show (appendStrH pt.l s).all (nodeWf h.tmpls.length) = true
            rw [all_appendStrH _ (fun s1 => rfl)]
            exact List.all_eq_true.mp hwfT pt (getAt_mem h.texts p pt hpt)
          · show (h.tmpls.all (tmplWf (setAt h.texts p ⟨appendStrH pt.l s⟩).length)) = true
            rw [length_setAt]
            exact hwfM
        · rw [claimInv, List.all_eq_true]
          intro u hu
          have hinvu := hinv' u hu
          rw [tmplInvAt] at hinvu ⊢
          show parentSpec (setAt h.texts p ⟨appendStrH pt.l s⟩) u (getAt h.tmpls u) = true
          cases hget : getAt h.tmpls u with
          | none => rw [parentSpec]
          | some obj =>
            rw [hget] at hinvu
            rw [parentSpec] at hinvu ⊢
            rw [parentSpecP_congr _ _ _ _
              (textsContaining_setAt_same h.texts p pt ⟨appendStrH pt.l s⟩ u hpt
                (hasRef_appendStrH u pt.l s))]
            exact hinvu
  | appendTmpl p t =>
    simp only [runOp] at hrun
    cases hpt : getAt h.texts p with
    | none =>
      rw [hpt] at hrun
      cases hobj : getAt h.tmpls t with
      | none => rw [hobj] at hrun; exact absurd hrun (by simp)
      | some obj => rw [hobj] at hrun; exact absurd hrun (by simp)
    | some pt =>
      rw [hpt] at hrun
      cases hobj : getAt h.tmpls t with
      | none => rw [hobj] at hrun; exact absurd hrun (by simp)
      | some obj =>
        rw [hobj] at hrun
        simp only [Option.some.injEq] at hrun
        subst hrun
        rw [goodOp, hobj] at hg
        dsimp only at hg
        have hpar : obj.parent = none := by
          cases hpc : obj.parent with
          | none => rfl
          | some q => rw [hpc] at hg; exact absurd hg (by simp [Option.isNone])
        have hplen : p < h.texts.length := getAt_isSome_lt h.texts p pt hpt
        have htlen : t < h.tmpls.length := getAt_isSome_lt h.tmpls t obj hobj
        have hinvt := hinv' t (List.mem_range.mpr htlen)
        rw [tmplInvAt, hobj, parentSpec, hpar, parentSpecP] at hinvt
        have hempty : textsContaining h.texts t = [] := of_decide_eq_true hinvt
        have hcontf : ∀ q, q < h.texts.length → containsPred h.texts t q = false :=
          filter_range_nil_forall (containsPred h.texts t) h.texts.length hempty
        constructor
        · rw [wfHeap, Bool.and_eq_true]
          constructor
          · show ((setAt h.texts p ⟨pt.l ++ [HNode.tmplRef t]⟩).all
                (textWf (setAt h.tmpls t ⟨obj.title, obj.params, some p⟩).length)) = true
            rw [length_setAt]
            apply all_setAt _ _ _ _ hwfT
            show (pt.l ++ [HNode.tmplRef t]).all (nodeWf h.tmpls.length) = true
            rw [List.all_append, Bool.and_eq_true]
            constructor
            · exact List.all_eq_true.mp hwfT pt (getAt_mem h.texts p pt hpt)
            · show (nodeWf h.tmpls.length (HNode.tmplRef t) && true) = true
              rw [Bool.and_true]
              exact decide_eq_true htlen
          · show ((setAt h.tmpls t ⟨obj.title, obj.params, some p⟩).all
                (tmplWf (setAt h.texts p ⟨pt.l ++ [HNode.tmplRef t]⟩).length)) = true
            rw [length_setAt]
            apply all_setAt _ _ _ _ hwfM
            have hobjWf := List.all_eq_true.mp hwfM obj (getAt_mem h.tmpls t obj hobj)
            rw [tmplWf, Bool.and_eq_true] at hobjWf
            rw [tmplWf, Bool.and_eq_true]
            exact ⟨decide_eq_true hplen, hobjWf.2⟩
        · rw [claimInv, List.all_eq_true]
          intro u hu
          rw [List.mem_range, length_setAt] at hu
          rw [tmplInvAt]
          show parentSpec (setAt h.texts p ⟨pt.l ++ [HNode.tmplRef t]⟩) u
              (getAt (setAt h.tmpls t ⟨obj.title, obj.params, some p⟩) u) = true
          by_cases hut : u = t
          · subst hut
            rw [getAt_setAt_self _ _ _ htlen]
            rw [parentSpec]
            show parentSpecP (setAt h.texts p ⟨pt.l ++ [HNode.tmplRef u]⟩) u (some p) = true
            rw [parentSpecP]
            apply decide_eq_true
            apply textsContaining_single_of
            · rw [length_setAt]
              exact hplen
            · intro q hq
              rw [length_setAt] at hq
              by_cases hqp : q = p
              · subst hqp
                rw [containsPred, getAt_setAt_self _ _ _ hplen]
                show hasRef u (pt.l ++ [HNode.tmplRef u]) = decide (q = q)
                rw [hasRef_append_ref]
                simp
              · rw [containsPred, getAt_setAt_ne _ _ _ _ hqp]
                rw [decide_eq_false hqp]
                have := hcontf q hq
                rw [containsPred] at this
                exact this
          · rw [getAt_setAt_ne _ _ _ _ hut]
            have hinvu := hinv' u (List.mem_range.mpr hu)
            rw [tmplInvAt] at hinvu
            cases hget : getAt h.tmpls u with
            | none => rw [parentSpec]
            | some objU =>
              rw [hget] at hinvu
              rw [parentSpec] at hinvu ⊢
              rw [parentSpecP_congr _ _ _ _
                (textsContaining_setAt_same h.texts p pt ⟨pt.l ++ [HNode.tmplRef t]⟩ u hpt
                  (hasRef_append_ref_ne t u pt.l (fun hc => hut hc.symm)))]
              exact hinvu
  | setParam t k v =>
    simp only [runOp] at hrun
    cases hobj : getAt h.tmpls t with
    | none =>
      rw [hobj] at hrun
      cases hv : getAt h.texts v with
      | none => rw [hv] at hrun; exact absurd hrun (by simp)
      | some vv => rw [hv] at hrun; exact absurd hrun (by simp)
    | some obj =>
      rw [hobj] at hrun
      cases hv : getAt h.texts v with
      | none => rw [hv] at hrun; exact absurd hrun (by simp)
      | some vv =>
        rw [hv] at hrun
        simp only [Option.some.injEq] at hrun
        subst hrun
        have htlen : t < h.tmpls.length := getAt_isSome_lt h.tmpls t obj hobj
        have hvlen : v < h.texts.length := getAt_isSome_lt h.texts v vv hv
        constructor
        · rw [wfHeap, Bool.and_eq_true]
          constructor
          · show (h.texts.all
                (textWf (setAt h.tmpls t ⟨obj.title, setAssocN obj.params k v, obj.parent⟩).length))
                = true
            rw [length_setAt]
            exact hwfT
          · show ((setAt h.tmpls t ⟨obj.title, setAssocN obj.params k v, obj.parent⟩).all
                (tmplWf h.texts.length)) = true
            apply all_setAt _ _ _ _ hwfM
            have hobjWf := List.all_eq_true.mp hwfM obj (getAt_mem h.tmpls t obj hobj)
            rw [tmplWf, Bool.and_eq_true] at hobjWf
            rw [tmplWf, Bool.and_eq_true]
            refine ⟨hobjWf.1, ?_⟩
            exact setAssocN_all _ obj.params k v hobjWf.2 (decide_eq_true hvlen)
        · rw [claimInv, List.all_eq_true]
          intro u hu
          rw [List.mem_range, length_setAt] at hu
          rw [tmplInvAt]
          show parentSpec h.texts u
              (getAt (setAt h.tmpls t ⟨obj.title, setAssocN obj.params k v, obj.parent⟩) u) = true
          by_cases hut : u = t
          · subst hut
            rw [getAt_setAt_self _ _ _ htlen]
            rw [parentSpec]
            show parentSpecP h.texts u obj.parent = true
            have hinvu := hinv' u (List.mem_range.mpr htlen)
            rw [tmplInvAt, hobj, parentSpec] at hinvu
            exact hinvu
          · rw [getAt_setAt_ne _ _ _ _ hut]
            have hinvu := hinv' u (List.mem_range.mpr hu)
            rw [tmplInvAt] at hinvu
            exact hinvu
  | drop t =>
    simp only [runOp, goodOp] at hrun hg
    cases hobj : getAt h.tmpls t with
    | none => rw [hobj] at hg; dsimp only at hg; exact absurd hg (by simp)
    | some obj =>
      rw [hobj] at hrun hg
      dsimp only at hrun hg
      cases hpar : obj.parent with
      | none =>
        rw [hpar] at hrun
        simp only [Option.some.injEq] at hrun
        subst hrun
        exact ⟨by rw [wfHeap, Bool.and_eq_true]; exact ⟨hwfT, hwfM⟩, hinv⟩
      | some p =>
        rw [hpar] at hrun hg
        dsimp only at hrun hg
        cases hpt : getAt h.texts p with
        | none => rw [hpt] at hg; dsimp only at hg; exact absurd hg (by simp)
        | some pt =>
          rw [hpt] at hrun hg
          dsimp only at hrun hg
          rw [Bool.and_eq_true] at hg
          have hcount := of_decide_eq_true hg.1
          have honly : ∀ e ∈ pt.l, hnodeMatch h e t = decide (e = HNode.tmplRef t) := by
            intro e he
            exact of_decide_eq_true (List.all_eq_true.mp hg.2 e he)
          have hmem := countRef_one_hasRef t pt.l hcount
          have hnil : ¬(pt.l = []) := by
            intro hc
            rw [hc] at hmem
            exact absurd hmem (by simp [hasRef])
          rw [if_neg hnil] at hrun
          rw [removeFirst_eq_eraseRef h t pt.l honly hmem] at hrun
          simp only [Option.some.injEq] at hrun
          subst hrun
          have htlen : t < h.tmpls.length := getAt_isSome_lt h.tmpls t obj hobj
          have hplen : p < h.texts.length := getAt_isSome_lt h.texts p pt hpt
          have hinvt := hinv' t (List.mem_range.mpr htlen)
          rw [tmplInvAt, hobj, parentSpec, hpar, parentSpecP] at hinvt
          have hsingle : textsContaining h.texts t = [p] := of_decide_eq_true hinvt
          have hcontf : ∀ q, q < h.texts.length → q ≠ p → containsPred h.texts t q = false :=
            filter_range_single_forall (containsPred h.texts t) h.texts.length p hsingle
          constructor
          · rw [wfHeap, Bool.and_eq_true]
            constructor
            · show ((setAt h.texts p ⟨eraseRef t pt.l⟩).all
                  (textWf (setAt h.tmpls t ⟨obj.title, obj.params, none⟩).length)) = true
              rw [length_setAt]
              apply all_setAt _ _ _ _ hwfT
              show (eraseRef t pt.l).all (nodeWf h.tmpls.length) = true
              exact all_eraseRef _ t pt.l
                (List.all_eq_true.mp hwfT pt (getAt_mem h.texts p pt hpt))
            · show ((setAt h.tmpls t ⟨obj.title, obj.params, none⟩).all
                  (tmplWf (setAt h.texts p ⟨eraseRef t pt.l⟩).length)) = true
              rw [length_setAt]
              apply all_setAt _ _ _ _ hwfM
              have hobjWf := List.all_eq_true.mp hwfM obj (getAt_mem h.tmpls t obj hobj)
              rw [tmplWf, Bool.and_eq_true] at hobjWf
              rw [tmplWf, Bool.and_eq_true]
              exact ⟨rfl, hobjWf.2⟩
          · rw [claimInv, List.all_eq_true]
            intro u hu
            rw [List.mem_range, length_setAt] at hu
            rw [tmplInvAt]
            show parentSpec (setAt h.texts p ⟨eraseRef t pt.l⟩) u
                (getAt (setAt h.tmpls t ⟨obj.title, obj.params, none⟩) u) = true
            by_cases hut : u = t
            · subst hut
              rw [getAt_setAt_self _ _ _ htlen]
              rw [parentSpec]
              show parentSpecP (setAt h.texts p ⟨eraseRef u pt.l⟩) u none = true
              rw [parentSpecP]
              apply decide_eq_true
              apply textsContaining_empty_iff
              intro q hq
              rw [length_setAt] at hq
              by_cases hqp : q = p
              · subst hqp
                rw [containsPred, getAt_setAt_self _ _ _ hplen]
                exact hasRef_eraseRef_self u pt.l hcount
              · rw [containsPred, getAt_setAt_ne _ _ _ _ hqp]
                have := hcontf q hq hqp
                rw [containsPred] at this
                exact this
            · rw [getAt_setAt_ne _ _ _ _ hut]
              have hinvu := hinv' u (List.mem_range.mpr hu)
              rw [tmplInvAt] at hinvu
              cases hget : getAt h.tmpls u with
              | none => rw [parentSpec]
              | some objU =>
                rw [hget] at hinvu
                rw [parentSpec] at hinvu ⊢
                rw [parentSpecP_congr _ _ _ _
                  (textsContaining_setAt_same h.texts p pt ⟨eraseRef t pt.l⟩ u hpt
                    (hasRef_eraseRef_ne t u pt.l hut))]
                exact hinvu

/-- C6 witness: appending a parentless template to an allocated
`WikiText` keeps the heap well-formed and the parent invariant intact. -/
theorem c6_parent_invariant_amended_witness :
    wfHeap ⟨[TextObj.mk []], [TmplObj.mk (some "T") [] none]⟩ = true ∧
    claimInv ⟨[TextObj.mk []], [TmplObj.mk (some "T") [] none]⟩ = true ∧
    goodOp ⟨[TextObj.mk []], [TmplObj.mk (some "T") [] none]⟩ (Op.appendTmpl 0 0) = true ∧
    runOp ⟨[TextObj.mk []], [TmplObj.mk (some "T") [] none]⟩ (Op.appendTmpl 0 0)
      = some ⟨[TextObj.mk [HNode.tmplRef 0]], [TmplObj.mk (some "T") [] (some 0)]⟩ ∧
    (wfHeap ⟨[TextObj.mk [HNode.tmplRef 0]], [TmplObj.mk (some "T") [] (some 0)]⟩ = true ∧
     claimInv ⟨[TextObj.mk [HNode.tmplRef 0]], [TmplObj.mk (some "T") [] (some 0)]⟩ = true) :=
  ⟨by decide, by decide, by decide, by decide,
   c6_parent_invariant_amended ⟨[TextObj.mk []], [TmplObj.mk (some "T") [] none]⟩
     (Op.appendTmpl 0 0)
     ⟨[TextObj.mk [HNode.tmplRef 0]], [TmplObj.mk (some "T") [] (some 0)]⟩
     (by decide) (by decide) (by decide) (by decide)⟩

/-- C7: after `t.drop()` the template is NOT always absent from its
former parent's node sequence.  `__iadd__` happily appends the same
`WikiTemplate` object twice (it never checks membership), and
`list.remove` in `drop` (line 256) removes only the FIRST match: after
`wt += t; wt += t; t.drop()` the parent still holds one occurrence of
`t` while `t.parent` is already cleared — refuting the claim. -/
theorem c7_drop_removal_counterexample :
    runOps Heap.empty
        [Op.newText, Op.newTmpl (some "T") none, Op.appendTmpl 0 0, Op.appendTmpl 0 0]
      = some ⟨[TextObj.mk [HNode.tmplRef 0, HNode.tmplRef 0]],
              [TmplObj.mk (some "T") [] (some 0)]⟩
    ∧ runOp ⟨[TextObj.mk [HNode.tmplRef 0, HNode.tmplRef 0]],
             [TmplObj.mk (some "T") [] (some 0)]⟩ (Op.drop 0)
      = some ⟨[TextObj.mk [HNode.tmplRef 0]], [TmplObj.mk (some "T") [] none]⟩
    ∧ hasRef 0 [HNode.tmplRef 0] = true :=
  ⟨by decide, by decide, by decide⟩

/-- C7 (amended): `drop` behaves as specified once `list.remove` is
deterministic: a parentless template's drop is a no-op; and when `t`'s
single occurrence in its parent `p` is the only `==`-match in `p`'s
node list, `drop` removes exactly that occurrence, clears `t.parent`,
leaves `t` absent from `p`'s nodes, and touches nothing else — every
other `WikiText` (in particular any parameter value of another
template that contains `t`) and every other template, including `t`'s
own parameter dict, is unchanged. -/
theorem c7_drop_semantics_amended (h : Heap) (t : Nat) (obj : TmplObj)
    (ht : getAt h.tmpls t = some obj) :
    (obj.parent = none → runOp h (Op.drop t) = some h)
    ∧ (∀ p pt, obj.parent = some p → getAt h.texts p = some pt →
        countRef t pt.l = 1 →
        (∀ e ∈ pt.l, hnodeMatch h e t = decide (e = HNode.tmplRef t)) →
        runOp h (Op.drop t)
          = some ⟨setAt h.texts p (TextObj.mk (eraseRef t pt.l)),
                  setAt h.tmpls t (TmplObj.mk obj.title obj.params none)⟩
        ∧ hasRef t (eraseRef t pt.l) = false
        ∧ (∀ q, q ≠ p →
            getAt (setAt h.texts p (TextObj.mk (eraseRef t pt.l))) q = getAt h.texts q)
        ∧ (∀ u, u ≠ t →
            getAt (setAt h.tmpls t (TmplObj.mk obj.title obj.params none)) u
              = getAt h.tmpls u)
        ∧ getAt (setAt h.tmpls t (TmplObj.mk obj.title obj.params none)) t
            = some (TmplObj.mk obj.title obj.params none)) := by
  constructor
  · intro hpar
    rw [runOp, ht]
    dsimp only
    rw [hpar]
  · intro p pt hpar hpt hcount honly
    have hmem := countRef_one_hasRef t pt.l hcount
    have hnil : ¬(pt.l = []) := by
      intro hc
      rw [hc] at hmem
      exact absurd hmem (by simp [hasRef])
    refine ⟨?_, hasRef_eraseRef_self t pt.l hcount, ?_, ?_, ?_⟩
    · rw [runOp, ht]
      dsimp only
      rw [hpar]
      dsimp only
      rw [hpt]
      dsimp only
      rw [if_neg hnil, removeFirst_eq_eraseRef h t pt.l honly hmem]
    · intro q hq
      exact getAt_setAt_ne _ _ _ _ hq
    · intro u hu
      exact getAt_setAt_ne _ _ _ _ hu
    · exact getAt_setAt_self _ _ _ (getAt_isSome_lt _ _ _ ht)

/-- The aliasing scenario of C7's frame condition: text 1 is a
parameter value of template 1 and holds a reference to template 0,
which is also parented by text 0. -/
def c7Heap : Heap :=
  ⟨[TextObj.mk [HNode.str "a", HNode.tmplRef 0], TextObj.mk [HNode.tmplRef 0]],
   [TmplObj.mk (some "T") [] (some 0), TmplObj.mk (some "U") [("1", 1)] none]⟩

/-- C7 witness: dropping template 0 from text 0 removes its single
occurrence there, clears its parent, and leaves text 1 (the parameter
value of template 1 that also references it) untouched. -/
theorem c7_drop_semantics_amended_witness :
    countRef 0 [HNode.str "a", HNode.tmplRef 0] = 1 ∧
    runOp c7Heap (Op.drop 0)
      = some ⟨setAt c7Heap.texts 0 (TextObj.mk (eraseRef 0 [HNode.str "a", HNode.tmplRef 0])),
              setAt c7Heap.tmpls 0 (TmplObj.mk (some "T") [] none)⟩ ∧
    hasRef 0 (eraseRef 0 [HNode.str "a", HNode.tmplRef 0]) = false ∧
    (∀ q, q ≠ 0 →
      getAt (setAt c7Heap.texts 0 (TextObj.mk (eraseRef 0 [HNode.str "a", HNode.tmplRef 0]))) q
        = getAt c7Heap.texts q) :=
  ⟨by decide,
   ((c7_drop_semantics_amended c7Heap 0 (TmplObj.mk (some "T") [] (some 0)) rfl).2 0
      (TextObj.mk [HNode.str "a", HNode.tmplRef 0]) rfl rfl (by decide) (by decide)).1,
   ((c7_drop_semantics_amended c7Heap 0 (TmplObj.mk (some "T") [] (some 0)) rfl).2 0
      (TextObj.mk [HNode.str "a", HNode.tmplRef 0]) rfl rfl (by decide) (by decide)).2.1,
   ((c7_drop_semantics_amended c7Heap 0 (TmplObj.mk (some "T") [] (some 0)) rfl).2 0
      (TextObj.mk [HNode.str "a", HNode.tmplRef 0]) rfl rfl (by decide) (by decide)).2.2.1⟩
